import Mathlib

/-!
Verification of the acquisition orchestrator of the
download-or-build-purescript package (src/index.js).

The orchestrator is a single-threaded, event-driven state machine: it
subscribes to a binary download, probes the build toolchain, and decides
whether to fall back to building from source.  We embed it shallowly:

* the mutable closure state of one invocation (the zen-observable
  subscription state, the feint counter of startBuild, the once flag of
  completeHead, the recorded toolchain status, ...) becomes a record St;
* every asynchronous callback of the source becomes a handler St -> St;
* one run is a left fold of the handlers over a schedule of external
  events (Input), starting from the synchronous subscriber body.

Progress events delivered to the consumer are accumulated in St.out, the
terminal outcome (observer.complete / observer.error) in St.term.
-/

namespace DownloadOrBuildPurescript

/-- Character-list helper: last path component (node path.basename,
posix separators), written by structural recursion so that it reduces
in the kernel. -/
def basenameAux (cur : List Char) : List Char → List Char
  | [] => cur
  | c :: cs => if c = '/' then basenameAux [] cs else basenameAux (cur ++ [c]) cs

/-- Embedding of node's path.basename(p). -/
def pathBasename (p : String) : String := ⟨basenameAux [] p.data⟩

/-- Embedding of node's path.basename(p, ext): the extension is dropped
when the basename ends with it and is not equal to it. -/
def basenameDropExt (p ext : String) : String :=
  let b := (pathBasename p).data
  let e := ext.data
  if b ≠ e ∧ e.isSuffixOf b then ⟨b.take (b.length - e.length)⟩ else ⟨b⟩

/-- Replace the first occurrence of pat in s (JS String.prototype.replace
with a string pattern replaces only the first occurrence). -/
def replaceFirstAux (pat rep : List Char) : List Char → List Char
  | [] => []
  | c :: cs =>
    if pat.isPrefixOf (c :: cs) then rep ++ (c :: cs).drop pat.length
    else c :: replaceFirstAux pat rep cs

/-- Embedding of JS s.replace(pat, rep) for string patterns. -/
def replaceFirst (s pat rep : String) : String :=
  ⟨replaceFirstAux pat.data rep.data s.data⟩

/-- Embedding of path.join / path.resolve of a directory and a relative
file name, as used at src/index.js lines 113 and 285 (the binary name
produced by the orchestrator is a plain file name). -/
def pathJoin (dir name : String) : String := dir ++ "/" ++ name

/-- Source line 21: the platform-appropriate default binary name. -/
def getPlatformBinName (platform : String) : String :=
  if platform = "win32" then "purs.exe" else "purs"

/-- Result of calling the user-supplied rename option: JS functions can
return a string or any non-string value (which the source rejects). -/
inductive RenameVal where
  | str (s : String)
  | nonString
  deriving Repr

/-- An error value: its classification code and its (mutable) id
property, which addId (source line 25) sets to the phase tag. -/
structure Err where
  code : String := ""
  id : String := ""
  deriving DecidableEq, Repr

/-- Terminal outcome of the observable: observer.complete() or
observer.error(e). -/
inductive Terminal where
  | complete
  | error (e : Err)
  deriving DecidableEq, Repr

/-- One progress event delivered to the consumer: its id and, for the
*:fail events, the attached error. -/
structure Progress where
  id : String
  err : Option Err := none
  deriving DecidableEq, Repr

/-- One invocation request (the validated parts of the arguments that
the orchestration logic reads): destination directory, platform option,
rename option, and the runtime's native platform (process.platform). -/
structure Request where
  dir : String
  platform : Option String := none
  rename : Option (String → RenameVal) := none
  nativePlatform : String

/-- Source line 88: options.platform is truthy (non-empty string). -/
def platformTruthy (req : Request) : Bool :=
  match req.platform with
  | none => false
  | some p => p ≠ ""

/-- Source line 100: options.platform || process.platform. -/
def targetPlatform (req : Request) : String :=
  match req.platform with
  | none => req.nativePlatform
  | some p => if p = "" then req.nativePlatform else p

/-- Source line 88: options.platform && options.platform !== process.platform. -/
def isDifferentPlatform (req : Request) : Bool :=
  platformTruthy req && decide (targetPlatform req ≠ req.nativePlatform)

/-- Source lines 100-101: the caller-resolved binary name (the rename
function, when given, applied to the platform default name; the
nonString arm is unreachable for validated requests). -/
def binNameOf (req : Request) : String :=
  match req.rename with
  | none => getPlatformBinName (targetPlatform req)
  | some f =>
    match f (getPlatformBinName (targetPlatform req)) with
    | .str s => s
    | .nonString => getPlatformBinName (targetPlatform req)

/-- Source lines 57-111: the synchronous validation performed by the
subscriber body before it emits any event.  Returns the thrown error,
none when the request is accepted.  (Only the checks the claims are
about are modelled: the destination string and the rename result; the
thrown TypeError/Error values are represented by their classification
codes and carry no phase id.) -/
def validate (req : Request) : Option Err :=
  if req.dir = "" then some ⟨"ERR_EMPTY_DIR", ""⟩
  else
    match req.rename with
    | none => none
    | some f =>
      match f (getPlatformBinName (targetPlatform req)) with
      | .nonString => some ⟨"ERR_RENAME_NOT_STRING", ""⟩
      | .str s => if s = "" then some ⟨"ERR_RENAME_EMPTY", ""⟩ else none

/-- The closure state of one invocation of downloadOrBuildPurescript. -/
structure St where
  /-- progress events delivered to the consumer so far, in order -/
  out : List Progress := []
  /-- the terminal outcome, once delivered -/
  term : Option Terminal := none
  /-- the consumer has unsubscribed -/
  cancelled : Bool := false
  /-- number of calls to the feint-wrapped startBuild (source line 120) -/
  startBuildCount : Nat := 0
  /-- number of times the startBuild body actually ran (the feint wrapper
  runs its function only on the second call) -/
  buildFired : Nat := 0
  /-- the once flag of completeHead (source line 245) -/
  headDone : Bool := false
  /-- downloadObserver.error has been replaced by
  handleBinaryDownloadError (source line 253) -/
  dlErrHandlerSwapped : Bool := false
  /-- the download subscription has delivered error or complete -/
  dlSettled : Bool := false
  /-- the execFile --version callback of the binary check is outstanding -/
  checkBinaryPending : Bool := false
  /-- the build-purescript subscription exists (source line 129) -/
  buildActive : Bool := false
  /-- the build-purescript subscription has delivered an error -/
  buildSettled : Bool := false
  /-- the fs.rename callback after build:complete is outstanding -/
  renamePending : Bool := false
  /-- the (from, to) arguments passed to fs.rename (source line 137) -/
  renameArgs : Option (String × String) := none
  /-- the binaryPathError variable (source line 55) -/
  binaryPathError : Option Err := none
  /-- stackCheckResult.error (source line 173) -/
  stackError : Option Err := none
  /-- the which/spawnStack callback has run (source line 167) -/
  stackDone : Bool := false
  /-- the prepareWrite promise has settled (source line 256) -/
  prepSettled : Bool := false
  /-- ghost: some non-fatal failure armed the fallback (one of the
  head:fail, download-binary:fail, check-binary:fail branches ran) -/
  fallbackTriggered : Bool := false
  /-- ghost: the on-disk location where the binary was placed (the
  accepted archive entry's absolute path, or the fs.rename target) -/
  installedPath : Option String := none
  /-- ghost: the sendError(binaryPathError) line of completeHead (source
  line 249) has run, i.e. the preparation error was surfaced -/
  bpeSurfaced : Bool := false
  deriving DecidableEq, Repr

/-- Observer state used by every guard in the source: the zen-observable
subscription is closed after a terminal event or an unsubscribe. -/
def St.closed (s : St) : Bool := s.term.isSome || s.cancelled

/-- observer.next: delivers a progress event unless closed. -/
def obsNext (s : St) (p : Progress) : St :=
  if s.closed then s else { s with out := s.out ++ [p] }

/-- observer.complete: terminates the stream unless closed. -/
def obsComplete (s : St) : St :=
  if s.closed then s else { s with term := some .complete }

/-- observer.error: terminates the stream unless closed (a closed
zen-observable reports the error to the host instead). -/
def obsError (s : St) (e : Err) : St :=
  if s.closed then s else { s with term := some (.error e) }

/-- Source lines 115-118: addId then observer.error. -/
def sendError (s : St) (e : Err) (tag : String) : St :=
  obsError s { e with id := tag }

/-- Source lines 120-128 plus 129: the body of startBuild.  A recorded
toolchain-probe failure is surfaced tagged check-stack; otherwise the
probe result and check-stack:complete are emitted and the build
subscription is created. -/
def startBuildBody (s : St) : St :=
  match s.stackError with
  | some e => sendError s e "check-stack"
  | none =>
    let s1 := obsNext s ⟨"check-stack", none⟩
    let s2 := obsNext s1 ⟨"check-stack:complete", none⟩
    { s2 with buildActive := true }

/-- The feint wrapper around startBuild: the wrapped function does
nothing on its first call and runs on its second (the ghost counter
buildFired records that the body ran). -/
def startBuildFeint (s : St) : St :=
  let c := s.startBuildCount + 1
  let s1 := { s with startBuildCount := c }
  if c = 2 then startBuildBody { s1 with buildFired := s1.buildFired + 1 } else s1

/-- Source lines 159-165: startBuildIfNeeded checks observer.closed
before calling the feint-wrapped startBuild. -/
def startBuildIfNeeded (s : St) : St :=
  if s.closed then s else startBuildFeint s

/-- Source lines 245-254: completeHead (wrapped in once).  Emits
head:complete; then either surfaces a recorded preparation error tagged
download-binary, or swaps the download error handler. -/
def completeHead (s : St) : St :=
  if s.headDone then s
  else
    let s1 := { s with headDone := true }
    let s2 := obsNext s1 ⟨"head:complete", none⟩
    match s2.binaryPathError with
    | some e => sendError { s2 with bpeSurfaced := true } e "download-binary"
    | none => { s2 with dlErrHandlerSwapped := true }

/-- Source lines 179-193: handleBinaryDownloadError.  Fatal for an
explicit foreign platform, otherwise downgraded to download-binary:fail
and the fallback is armed. -/
def handleBinaryDownloadError (req : Request) (s : St) (e : Err) : St :=
  let e1 : Err := { e with id := "download-binary" }
  if isDifferentPlatform req then obsError s e1
  else
    let s1 := obsNext s ⟨"download-binary:fail", some e1⟩
    startBuildIfNeeded { s1 with fallbackTriggered := true }

/-- Source lines 200-214: the initial downloadObserver.error, replaced
by handleBinaryDownloadError once the head milestone completes.  Before
the swap, an unsupported-platform failure on the native platform becomes
head:fail and arms the fallback; every other failure is fatal tagged
head. -/
def dlErrorHandler (req : Request) (s : St) (e : Err) : St :=
  if s.dlErrHandlerSwapped then handleBinaryDownloadError req s e
  else if e.code = "ERR_UNSUPPORTED_PLATFORM" ∧ isDifferentPlatform req = false then
    let e1 : Err := { e with id := "head" }
    let s1 := obsNext s ⟨"head:fail", some e1⟩
    startBuildIfNeeded { s1 with fallbackTriggered := true }
  else sendError s e "head"

/-- Source lines 215-242: downloadObserver.complete.  Emits
download-binary:complete; a foreign-platform download terminates
successfully at once, a native one starts the binary check. -/
def dlCompleteHandler (req : Request) (s : St) : St :=
  let s1 := obsNext s ⟨"download-binary:complete", none⟩
  if isDifferentPlatform req then obsComplete s1
  else
    let s2 := obsNext s1 ⟨"check-binary", none⟩
    { s2 with checkBinaryPending := true }

/-- Source lines 225-241: the execFile --version callback of the binary
check.  Failure becomes check-binary:fail and arms the fallback; success
emits check-binary:complete and terminates successfully. -/
def checkBinHandler (s : St) (r : Option Err) : St :=
  match r with
  | some e =>
    let e1 : Err := { e with id := "check-binary" }
    let s1 := obsNext s ⟨"check-binary:fail", some e1⟩
    startBuildIfNeeded { s1 with fallbackTriggered := true }
  | none =>
    let s1 := obsNext s ⟨"check-binary:complete", none⟩
    obsComplete s1

/-- Source lines 167-177: the which('stack') callback records the
spawnStack outcome and calls startBuildIfNeeded. -/
def stackHandler (s : St) (r : Except Err String) : St :=
  match r with
  | .ok _ => startBuildIfNeeded s
  | .error e => startBuildIfNeeded { s with stackError := some e }

/-- Source lines 130-152: the build subscription's next handler.  On
build:complete it starts the fs.rename of the builder's fixed output
name to the caller-resolved final path; every other event is forwarded
with download rewritten to download-source in its id. -/
def buildNextHandler (req : Request) (s : St) (id : String) : St :=
  if id = "build:complete" then
    { s with renamePending := true,
             renameArgs := some (pathJoin req.dir (getPlatformBinName req.nativePlatform),
                                 pathJoin req.dir (binNameOf req)) }
  else obsNext s ⟨replaceFirst id "download" "download-source", none⟩

/-- Source lines 153-155: the build subscription's error handler. -/
def buildErrorHandler (s : St) (e : Err) : St :=
  sendError s e (replaceFirst e.id "download" "download-source")

/-- Source lines 137-145: the fs.rename callback.  Failure is fatal
tagged build; success forwards build:complete and terminates
successfully, the binary now being at the caller-resolved final path. -/
def renameHandler (req : Request) (s : St) (r : Option Err) : St :=
  match r with
  | some e => sendError s e "build"
  | none =>
    let s1 := { s with installedPath := some (pathJoin req.dir (binNameOf req)) }
    let s2 := obsNext s1 ⟨"build:complete", none⟩
    obsComplete s2

/-- Source lines 256-272: the prepareWrite continuation.  Success does
nothing; failure records binaryPathError and, unless closed, runs
completeHead. -/
def prepHandler (s : St) (r : Option Err) : St :=
  match r with
  | none => s
  | some e =>
    let s1 := { s with binaryPathError := some e }
    if s1.closed then s1 else completeHead s1

/-- Source lines 276-288: the download filter callback.  It runs
completeHead on every inspected entry and redirects an entry whose
basename (modulo .exe) is purs to the caller-resolved path. -/
def dlFilterHandler (req : Request) (s : St) (p : String) : St :=
  let s1 := completeHead s
  if basenameDropExt p ".exe" = "purs" then
    { s1 with installedPath := some (pathJoin req.dir (binNameOf req)) }
  else s1

/-- External happenings delivered by the event loop to one invocation. -/
inductive Input where
  /-- the prepareWrite promise settles (none = success) -/
  | prep (r : Option Err)
  /-- the download filter inspects an archive entry with this path -/
  | dlFilter (path : String)
  /-- the download subscription delivers an entry progress event -/
  | dlNext
  /-- the download subscription delivers its error -/
  | dlError (e : Err)
  /-- the download subscription completes -/
  | dlComplete
  /-- the which/spawnStack toolchain probe settles -/
  | stack (r : Except Err String)
  /-- the execFile binary-check callback runs (none = success) -/
  | checkBin (r : Option Err)
  /-- the build subscription delivers a progress event with this id -/
  | buildNext (id : String)
  /-- the build subscription delivers its error -/
  | buildError (e : Err)
  /-- the fs.rename callback runs (none = success) -/
  | renameDone (r : Option Err)
  /-- the consumer unsubscribes -/
  | cancel
  deriving Repr

/-- One event-loop step.  Subscription-delivered events (download,
build) are suppressed once the observable is closed (the returned
cleanup function and the terminal cleanup of zen-observable unsubscribe
them); plain node callbacks (prepareWrite, which, execFile, fs.rename)
still run, their effects being guarded inside the handlers, exactly as
in the source. -/
def step (req : Request) (s : St) (i : Input) : St :=
  match i with
  | .prep r => if s.prepSettled then s else prepHandler { s with prepSettled := true } r
  | .dlFilter p => if s.closed || s.dlSettled then s else dlFilterHandler req s p
  | .dlNext => if s.closed || s.dlSettled then s else obsNext s ⟨"download-binary", none⟩
  | .dlError e =>
    if s.closed || s.dlSettled then s else dlErrorHandler req { s with dlSettled := true } e
  | .dlComplete =>
    if s.closed || s.dlSettled then s else dlCompleteHandler req { s with dlSettled := true }
  | .stack r => if s.stackDone then s else stackHandler { s with stackDone := true } r
  | .checkBin r =>
    if s.checkBinaryPending then checkBinHandler { s with checkBinaryPending := false } r else s
  | .buildNext id =>
    if s.closed || !s.buildActive || s.buildSettled then s else buildNextHandler req s id
  | .buildError e =>
    if s.closed || !s.buildActive || s.buildSettled then s
    else buildErrorHandler { s with buildSettled := true } e
  | .renameDone r =>
    if s.renamePending then renameHandler req { s with renamePending := false } r else s
  | .cancel => if s.closed then s else { s with cancelled := true }

/-- The synchronous subscriber body (source lines 39-292): validation
errors terminate the stream before any event; otherwise the head event
is delivered synchronously before any asynchronous work. -/
def startState (req : Request) : St :=
  match validate req with
  | some e => { term := some (.error e) }
  | none => { out := [⟨"head", none⟩] }

/-- One whole run: the subscriber body followed by a schedule of
external events. -/
def run (req : Request) (l : List Input) : St :=
  l.foldl (step req) (startState req)

/-- Event ids the build service can deliver as progress (§6 of the
collaborator contract: setup output, source download progress, compiler
output, build:complete). -/
def builderNextIds : List String :=
  ["download", "download:complete", "setup", "setup:complete", "build", "build:complete"]

/-- Phase ids the build service attaches to its errors. -/
def builderErrorIds : List String := ["download", "setup", "build"]

/-- Wf-accumulator update: remembers whether the download filter has
accepted a purs entry. -/
def seenUpd (seen : Bool) : Input → Bool
  | .dlFilter p => seen || decide (basenameDropExt p ".exe" = "purs")
  | _ => seen

/-- Side conditions a realistic schedule satisfies, from the
collaborator contracts: a successful download has delivered the purs
entry (the filter inspected and accepted it), and build-service events
use the build-service vocabulary. -/
def wfCondB (seen : Bool) : Input → Bool
  | .dlComplete => seen
  | .buildNext id => decide (id ∈ builderNextIds)
  | .buildError e => decide (e.id ∈ builderErrorIds)
  | _ => true

/-- A schedule is well formed when every event satisfies its side
condition. -/
def wfInputs : Bool → List Input → Bool
  | _, [] => true
  | seen, i :: l => wfCondB seen i && wfInputs (seenUpd seen i) l

/-- Well-formed schedule of one run. -/
def Wf (l : List Input) : Prop := wfInputs false l = true

instance (l : List Input) : Decidable (Wf l) := by unfold Wf; infer_instance

/-- Unfolding lemma for the observer state. -/
theorem closed_eq (s : St) : s.closed = (s.term.isSome || s.cancelled) := rfl

theorem run_nil (req : Request) : run req [] = startState req := rfl

theorem run_append (req : Request) (l1 l2 : List Input) :
    run req (l1 ++ l2) = l2.foldl (step req) (run req l1) := by
  simp [run, List.foldl_append]

theorem wfInputs_append (l1 : List Input) : ∀ (l2 : List Input) (seen : Bool),
    wfInputs seen (l1 ++ l2) =
      (wfInputs seen l1 && wfInputs (l1.foldl seenUpd seen) l2) := by
  induction l1 with
  | nil => intro l2 seen; simp [wfInputs]
  | cons i l ih => intro l2 seen; simp [wfInputs, ih, Bool.and_assoc]

/-- Complete case analysis of a call to startBuildIfNeeded: blocked by a
closed observer, a feint call that is not the second, or the second call
running the startBuild body on a failed or successful toolchain probe. -/
theorem startBuildIfNeeded_cases (s : St) :
    (s.closed = true ∧ startBuildIfNeeded s = s) ∨
    (s.closed = false ∧ s.startBuildCount + 1 ≠ 2 ∧
      startBuildIfNeeded s = { s with startBuildCount := s.startBuildCount + 1 }) ∨
    (s.closed = false ∧ s.startBuildCount = 1 ∧
      ((∃ e, s.stackError = some e ∧
          startBuildIfNeeded s =
            { s with startBuildCount := 2, buildFired := s.buildFired + 1,
                     term := some (.error ⟨e.code, "check-stack"⟩) }) ∨
        (s.stackError = none ∧
          startBuildIfNeeded s =
            { s with startBuildCount := 2, buildFired := s.buildFired + 1,
                     out := s.out ++ [⟨"check-stack", none⟩, ⟨"check-stack:complete", none⟩],
                     buildActive := true }))) := by
  by_cases hc : s.closed = true
  · exact Or.inl ⟨hc, by simp [startBuildIfNeeded, hc]⟩
  · rw [Bool.not_eq_true] at hc
    by_cases h2 : s.startBuildCount + 1 = 2
    · refine Or.inr (Or.inr ⟨hc, by omega, ?_⟩)
      rw [closed_eq] at hc
      cases hse : s.stackError with
      | some e =>
        refine Or.inl ⟨e, rfl, ?_⟩
        simp [startBuildIfNeeded, startBuildFeint, startBuildBody, sendError, obsError,
          closed_eq, hc, h2, hse]
      | none =>
        refine Or.inr ⟨rfl, ?_⟩
        simp [startBuildIfNeeded, startBuildFeint, startBuildBody, obsNext,
          closed_eq, hc, h2, hse]
    · refine Or.inr (Or.inl ⟨hc, h2, ?_⟩)
      rw [closed_eq] at hc
      simp [startBuildIfNeeded, startBuildFeint, closed_eq, hc, h2]

theorem sbin_headDone (s : St) : (startBuildIfNeeded s).headDone = s.headDone := by
  rcases startBuildIfNeeded_cases s with ⟨_, h⟩ | ⟨_, _, h⟩ | ⟨_, _, ⟨e, _, h⟩ | ⟨_, h⟩⟩ <;>
    rw [h]

theorem sbin_prepSettled (s : St) : (startBuildIfNeeded s).prepSettled = s.prepSettled := by
  rcases startBuildIfNeeded_cases s with ⟨_, h⟩ | ⟨_, _, h⟩ | ⟨_, _, ⟨e, _, h⟩ | ⟨_, h⟩⟩ <;>
    rw [h]

/-- Once the observable is closed (terminal event delivered or consumer
unsubscribed), no step changes the delivered events or the outcome. -/
theorem step_frozen (req : Request) (s : St) (i : Input) (hc : s.closed = true) :
    (step req s i).out = s.out ∧ (step req s i).term = s.term ∧ (step req s i).closed = true := by
  rw [closed_eq] at hc
  cases i with
  | prep r =>
    cases r with
    | none => by_cases hp : s.prepSettled <;> simp [step, prepHandler, hp, closed_eq, hc]
    | some e => by_cases hp : s.prepSettled <;> simp [step, prepHandler, hp, closed_eq, hc]
  | dlFilter p => simp [step, closed_eq, hc]
  | dlNext => simp [step, closed_eq, hc]
  | dlError e => simp [step, closed_eq, hc]
  | dlComplete => simp [step, closed_eq, hc]
  | stack r =>
    cases r <;> by_cases hd : s.stackDone <;>
      simp [step, stackHandler, startBuildIfNeeded, hd, closed_eq, hc]
  | checkBin r =>
    cases r <;> by_cases hp : s.checkBinaryPending <;>
      simp [step, checkBinHandler, obsNext, obsComplete, startBuildIfNeeded, hp, closed_eq, hc]
  | buildNext id => simp [step, closed_eq, hc]
  | buildError e => simp [step, closed_eq, hc]
  | renameDone r =>
    cases r <;> by_cases hp : s.renamePending <;>
      simp [step, renameHandler, sendError, obsError, obsNext, obsComplete, hp, closed_eq, hc]
  | cancel => simp [step, closed_eq, hc]

/-- Fold version of step_frozen: a closed run delivers nothing more. -/
theorem foldl_frozen (req : Request) (l : List Input) :
    ∀ s : St, s.closed = true →
      (l.foldl (step req) s).out = s.out ∧ (l.foldl (step req) s).term = s.term ∧
        (l.foldl (step req) s).closed = true := by
  induction l with
  | nil => intro s h; exact ⟨rfl, rfl, h⟩
  | cons i l ih =>
    intro s h
    obtain ⟨h1, h2, h3⟩ := step_frozen req s i h
    obtain ⟨g1, g2, g3⟩ := ih (step req s i) h3
    exact ⟨by rw [List.foldl_cons, g1, h1], by rw [List.foldl_cons, g2, h2],
      by rw [List.foldl_cons]; exact g3⟩

/-- Source line 113: the final binary path resolve(dir, binName). -/
def binPath (req : Request) : String := pathJoin req.dir (binNameOf req)

/-- The head:complete progress event. -/
def hcEv : Progress := ⟨"head:complete", none⟩

/-- The inductive invariant of one run, tying the machine state to the
claims: the first event is head; the binary is only ever installed at
the caller-resolved final path; success implies the binary is installed;
head completion is visible; the decision-barrier counter is bounded by
its two possible arrivals; *:fail fallback events are preceded by
head:complete; a foreign-platform run never arms the fallback; only the
decision barrier surfaces check-stack errors. -/
structure Inv (req : Request) (seen : Bool) (s : St) : Prop where
  headFirst : ∃ r, s.out = ⟨"head", none⟩ :: r
  ipBp : s.installedPath = none ∨ s.installedPath = some (binPath req)
  completeIp : s.term = some Terminal.complete → s.installedPath = some (binPath req)
  headHc : s.headDone = true → hcEv ∈ s.out
  swapHead : s.dlErrHandlerSwapped = true → s.headDone = true
  pendDl : s.checkBinaryPending = true → s.dlSettled = true
  pendTrig : s.checkBinaryPending = true → s.fallbackTriggered = false
  pendIp : s.checkBinaryPending = true → s.installedPath = some (binPath req)
  pendHc : s.checkBinaryPending = true → hcEv ∈ s.out
  trigDl : s.fallbackTriggered = true → s.dlSettled = true
  countLe : s.startBuildCount ≤
    (if s.stackDone then 1 else 0) + (if s.fallbackTriggered then 1 else 0)
  firedEq : s.buildFired = if 2 ≤ s.startBuildCount then 1 else 0
  seenIp : seen = true → s.closed = true ∨ s.dlSettled = true ∨
    (s.installedPath = some (binPath req) ∧ s.headDone = true)
  failHc : (∃ p ∈ s.out, p.id = "download-binary:fail" ∨ p.id = "check-binary:fail") →
    hcEv ∈ s.out
  forTrig : isDifferentPlatform req = true → s.fallbackTriggered = false
  forPend : isDifferentPlatform req = true → s.checkBinaryPending = false
  activeCount : s.buildActive = true → 2 ≤ s.startBuildCount
  renActive : s.renamePending = true → s.buildActive = true
  csCount : ∀ e, s.term = some (Terminal.error e) → e.id = "check-stack" →
    2 ≤ s.startBuildCount
  forErr : isDifferentPlatform req = true → ∀ e, s.term = some (Terminal.error e) →
    e.id = "head" ∨ e.id = "download-binary"

/-- The invariant holds right after the synchronous subscriber body of a
valid request. -/
theorem startState_inv (req : Request) (hv : validate req = none) :
    Inv req false (startState req) := by
  unfold startState
  rw [hv]
  exact {
    headFirst := ⟨[], rfl⟩
    ipBp := Or.inl rfl
    completeIp := by simp
    headHc := by simp
    swapHead := by simp
    pendDl := by simp
    pendTrig := by simp
    pendIp := by simp
    pendHc := by simp
    trigDl := by simp
    countLe := by simp
    firedEq := by simp
    seenIp := by simp
    failHc := by rintro ⟨p, hp, hid⟩; simp at hp; subst hp; revert hid; decide
    forTrig := by simp
    forPend := by simp
    activeCount := by simp
    renActive := by simp
    csCount := by simp
    forErr := by simp }

/-- Updates of the pure bookkeeping fields preserve the invariant. -/
theorem inv_ghost (req : Request) (seen : Bool) (s : St) (h : Inv req seen s)
    (b : Option Err) (pv bs : Bool) :
    Inv req seen { s with prepSettled := pv, binaryPathError := b, buildSettled := bs } :=
  ⟨h.headFirst, h.ipBp, h.completeIp, h.headHc, h.swapHead, h.pendDl, h.pendTrig,
    h.pendIp, h.pendHc, h.trigDl, h.countLe, h.firedEq, h.seenIp, h.failHc, h.forTrig,
    h.forPend, h.activeCount, h.renActive, h.csCount, h.forErr⟩

/-- Delivering a progress event that is not one of the two post-head
fallback events preserves the invariant. -/
theorem inv_obsNext (req : Request) (seen : Bool) (s : St) (p : Progress) (h : Inv req seen s)
    (hid1 : p.id ≠ "download-binary:fail") (hid2 : p.id ≠ "check-binary:fail") :
    Inv req seen (obsNext s p) := by
  unfold obsNext
  by_cases hc : s.closed = true
  · simp only [hc, if_pos]; exact h
  · rw [Bool.not_eq_true] at hc
    simp only [hc, Bool.false_eq_true, if_false]
    obtain ⟨r, hr⟩ := h.headFirst
    refine ⟨⟨r ++ [p], by rw [hr]; rfl⟩, h.ipBp, h.completeIp,
      fun hh => List.mem_append_left _ (h.headHc hh), h.swapHead, h.pendDl, h.pendTrig,
      h.pendIp, fun hh => List.mem_append_left _ (h.pendHc hh), h.trigDl, h.countLe,
      h.firedEq, ?_, ?_, h.forTrig, h.forPend, h.activeCount, h.renActive, h.csCount, h.forErr⟩
    · intro hs
      rcases h.seenIp hs with h1 | h1 | h1
      · exact Or.inl h1
      · exact Or.inr (Or.inl h1)
      · exact Or.inr (Or.inr h1)
    · rintro ⟨q, hq, hqid⟩
      rcases List.mem_append.mp hq with hq | hq
      · exact List.mem_append_left _ (h.failHc ⟨q, hq, hqid⟩)
      · rw [List.mem_singleton] at hq
        subst hq
        rcases hqid with hqid | hqid
        · exact absurd hqid hid1
        · exact absurd hqid hid2

/-- Delivering a terminal error whose phase tag is not check-stack (and,
for a foreign-platform request, is head or download-binary) preserves
the invariant. -/
theorem inv_obsError (req : Request) (seen : Bool) (s : St) (e : Err) (h : Inv req seen s)
    (ht : e.id ≠ "check-stack")
    (hf : isDifferentPlatform req = true → e.id = "head" ∨ e.id = "download-binary") :
    Inv req seen (obsError s e) := by
  unfold obsError
  by_cases hc : s.closed = true
  · simp only [hc, if_pos]; exact h
  · rw [Bool.not_eq_true] at hc
    simp only [hc, Bool.false_eq_true, if_false]
    refine ⟨h.headFirst, h.ipBp, by simp, h.headHc, h.swapHead, h.pendDl, h.pendTrig,
      h.pendIp, h.pendHc, h.trigDl, h.countLe, h.firedEq,
      fun _ => Or.inl (by simp [closed_eq]), h.failHc, h.forTrig, h.forPend,
      h.activeCount, h.renActive, ?_, ?_⟩
    · intro e2 he2 hcs
      obtain rfl : e = e2 := by
        simpa using he2
      exact absurd hcs ht
    · intro hdiff e2 he2
      obtain rfl : e = e2 := by
        simpa using he2
      exact hf hdiff

/-- Terminating successfully when the binary is installed at the final
path preserves the invariant. -/
theorem inv_obsComplete (req : Request) (seen : Bool) (s : St) (h : Inv req seen s)
    (hip : s.installedPath = some (binPath req)) :
    Inv req seen (obsComplete s) := by
  unfold obsComplete
  by_cases hc : s.closed = true
  · simp only [hc, if_pos]; exact h
  · rw [Bool.not_eq_true] at hc
    simp only [hc, Bool.false_eq_true, if_false]
    exact ⟨h.headFirst, h.ipBp, fun _ => hip, h.headHc, h.swapHead, h.pendDl, h.pendTrig,
      h.pendIp, h.pendHc, h.trigDl, h.countLe, h.firedEq,
      fun _ => Or.inl (by simp [closed_eq]), h.failHc, h.forTrig, h.forPend,
      h.activeCount, h.renActive, by simp, by simp⟩

/-- Recording the final path as the installed location preserves the
invariant. -/
theorem inv_setIp (req : Request) (seen : Bool) (s : St) (h : Inv req seen s) :
    Inv req seen { s with installedPath := some (binPath req) } := by
  refine ⟨h.headFirst, Or.inr rfl, fun _ => rfl, h.headHc, h.swapHead, h.pendDl, h.pendTrig,
    fun _ => rfl, h.pendHc, h.trigDl, h.countLe, h.firedEq, ?_, h.failHc, h.forTrig,
    h.forPend, h.activeCount, h.renActive, h.csCount, h.forErr⟩
  intro hs
  rcases h.seenIp hs with h1 | h1 | h1
  · exact Or.inl h1
  · exact Or.inr (Or.inl h1)
  · exact Or.inr (Or.inr ⟨rfl, h1.2⟩)

/-- Running completeHead on a live observer preserves the invariant,
marks the head milestone done, and leaves the installed path and the
download-settled flag unchanged. -/
theorem inv_completeHead (req : Request) (seen : Bool) (s : St) (h : Inv req seen s)
    (hc : s.closed = false) :
    Inv req seen (completeHead s) ∧ (completeHead s).headDone = true ∧
      (completeHead s).installedPath = s.installedPath ∧
      (completeHead s).dlSettled = s.dlSettled := by
  unfold completeHead
  by_cases hhd : s.headDone = true
  · rw [if_pos hhd]
    exact ⟨h, hhd, rfl, rfl⟩
  · rw [Bool.not_eq_true] at hhd
    rw [closed_eq] at hc
    simp only [hhd, Bool.false_eq_true, if_false, obsNext, closed_eq, hc]
    obtain ⟨r, hr⟩ := h.headFirst
    have hmem : hcEv ∈ s.out ++ [(⟨"head:complete", none⟩ : Progress)] :=
      List.mem_append_right _ (List.mem_singleton.mpr rfl)
    cases hb : s.binaryPathError with
    | some e =>
      simp only [sendError, obsError, closed_eq, hc, Bool.false_eq_true, if_false]
      refine ⟨⟨⟨r ++ [⟨"head:complete", none⟩], by rw [hr]; rfl⟩, h.ipBp, by simp,
        fun _ => hmem, fun _ => rfl, h.pendDl, h.pendTrig, h.pendIp,
        fun hp => List.mem_append_left _ (h.pendHc hp), h.trigDl, h.countLe, h.firedEq,
        fun _ => Or.inl (by simp [closed_eq]), fun _ => hmem, h.forTrig, h.forPend,
        h.activeCount, h.renActive, ?_, ?_⟩, by trivial, by trivial, by trivial⟩
      · intro e2 he2 hcs
        have h3 : Err.mk e.code "download-binary" = e2 := by
          have h4 := he2
          simp only [Option.some.injEq, Terminal.error.injEq] at h4
          exact h4
        rw [← h3] at hcs
        simp at hcs
      · intro _ e2 he2
        have h3 : Err.mk e.code "download-binary" = e2 := by
          have h4 := he2
          simp only [Option.some.injEq, Terminal.error.injEq] at h4
          exact h4
        rw [← h3]
        exact Or.inr rfl
    | none =>
      refine ⟨⟨⟨r ++ [⟨"head:complete", none⟩], by rw [hr]; rfl⟩, h.ipBp,
        fun ht => h.completeIp ht, fun _ => hmem, fun _ => rfl, h.pendDl, h.pendTrig,
        h.pendIp, fun hp => List.mem_append_left _ (h.pendHc hp), h.trigDl, h.countLe,
        h.firedEq, ?_, fun _ => hmem, h.forTrig, h.forPend,
        h.activeCount, h.renActive, h.csCount, h.forErr⟩, by trivial, by trivial, by trivial⟩
      intro hs
      rcases h.seenIp hs with h1 | h1 | h1
      · exact Or.inl h1
      · exact Or.inr (Or.inl h1)
      · exact Or.inr (Or.inr ⟨h1.1, rfl⟩)

/-- Every fallback-arming site (head:fail, download-binary:fail,
check-binary:fail) emits its fail event, sets the trigger and calls
startBuildIfNeeded; this preserves the invariant. -/
theorem inv_trigger (req : Request) (seen : Bool) (s : St) (h : Inv req seen s)
    (failId : String) (e : Err)
    (hds : s.dlSettled = true) (htrig : s.fallbackTriggered = false)
    (hpend : s.checkBinaryPending = false)
    (hfor : isDifferentPlatform req = false)
    (hhc2 : failId = "download-binary:fail" ∨ failId = "check-binary:fail" →
      s.closed = false → hcEv ∈ s.out) :
    Inv req seen (startBuildIfNeeded
      { (obsNext s ⟨failId, some e⟩) with fallbackTriggered := true }) := by
  have hforX : ∀ (P : Prop), isDifferentPlatform req = true → P := by
    intro P hdiff
    rw [hdiff] at hfor
    exact absurd hfor (by decide)
  by_cases hc : s.closed = true
  · rw [show obsNext s ⟨failId, some e⟩ = s from by unfold obsNext; simp [hc]]
    rw [show startBuildIfNeeded { s with fallbackTriggered := true }
        = { s with fallbackTriggered := true } from by
      unfold startBuildIfNeeded
      have : ({ s with fallbackTriggered := true } : St).closed = true := hc
      simp [this]]
    exact ⟨h.headFirst, h.ipBp, h.completeIp, h.headHc, h.swapHead, by simp [hpend],
      by simp [hpend], by simp [hpend], by simp [hpend], fun _ => hds,
      by dsimp only
         have hcl := h.countLe
         rw [htrig] at hcl
         by_cases hsd : s.stackDone = true <;> simp [hsd] at hcl ⊢ <;> omega,
      h.firedEq, fun _ => Or.inr (Or.inl hds), h.failHc, fun hdiff => hforX _ hdiff,
      fun _ => hpend, h.activeCount, h.renActive, h.csCount, h.forErr⟩
  · rw [Bool.not_eq_true] at hc
    rw [show obsNext s ⟨failId, some e⟩ = { s with out := s.out ++ [⟨failId, some e⟩] } from by
      unfold obsNext; simp [hc]]
    show Inv req seen (startBuildIfNeeded
      { s with out := s.out ++ [⟨failId, some e⟩], fallbackTriggered := true })
    obtain ⟨r, hr⟩ := h.headFirst
    have memLift : ∀ {q : Progress}, q ∈ s.out → q ∈ s.out ++ [(⟨failId, some e⟩ : Progress)] :=
      fun hq => List.mem_append_left _ hq
    have hcl0 := h.countLe
    rw [htrig] at hcl0
    rcases startBuildIfNeeded_cases
        { s with out := s.out ++ [⟨failId, some e⟩], fallbackTriggered := true }
      with ⟨hclB, heq⟩ | ⟨hclB, h2, heq⟩ | ⟨hclB, h1c, ⟨e2, hse, heq⟩ | ⟨hse, heq⟩⟩
    · have hclB2 : s.closed = true := hclB
      rw [hclB2] at hc
      exact absurd hc (by decide)
    · rw [heq]
      show Inv req seen
        { s with
            out := s.out ++ [⟨failId, some e⟩], fallbackTriggered := true,
            startBuildCount := s.startBuildCount + 1 }
      have h2n : s.startBuildCount + 1 ≠ 2 := h2
      refine ⟨⟨r ++ [⟨failId, some e⟩], by rw [hr]; rfl⟩, h.ipBp, fun ht => h.completeIp ht,
        fun hh => memLift (h.headHc hh), h.swapHead, by simp [hpend], by simp [hpend],
        by simp [hpend], by simp [hpend], fun _ => hds, ?_, ?_,
        fun _ => Or.inr (Or.inl hds), ?_, fun hdiff => hforX _ hdiff, fun _ => hpend,
        fun ha => Nat.le_succ_of_le (h.activeCount ha), h.renActive,
        fun e3 ht hcs => Nat.le_succ_of_le (h.csCount e3 ht hcs), h.forErr⟩
      · dsimp only
        by_cases hsd : s.stackDone = true <;> simp [hsd] at hcl0 ⊢ <;> omega
      · dsimp only
        have hf := h.firedEq
        by_cases hsd : s.stackDone = true <;> simp [hsd] at hcl0 <;>
          split at hf <;> split <;> omega
      · rintro ⟨q, hq, hqid⟩
        rcases List.mem_append.mp hq with hq | hq
        · exact memLift (h.failHc ⟨q, hq, hqid⟩)
        · rw [List.mem_singleton] at hq
          subst hq
          exact memLift (hhc2 hqid hc)
    · rw [heq]
      show Inv req seen
        { s with
            out := s.out ++ [⟨failId, some e⟩], fallbackTriggered := true,
            startBuildCount := 2, buildFired := s.buildFired + 1,
            term := some (Terminal.error ⟨e2.code, "check-stack"⟩) }
      have h1c2 : s.startBuildCount = 1 := h1c
      have hsd : s.stackDone = true := by
        by_cases hsd : s.stackDone = true
        · exact hsd
        · simp [hsd] at hcl0; omega
      refine ⟨⟨r ++ [⟨failId, some e⟩], by rw [hr]; rfl⟩, h.ipBp, by simp,
        fun hh => memLift (h.headHc hh), h.swapHead, by simp [hpend], by simp [hpend],
        by simp [hpend], by simp [hpend], fun _ => hds, by simp [hsd],
        ?_, fun _ => Or.inl (by simp [closed_eq]), ?_, fun hdiff => hforX _ hdiff,
        fun _ => hpend, fun _ => Nat.le_refl 2, h.renActive,
        fun _ _ _ => Nat.le_refl 2, fun hdiff => hforX _ hdiff⟩
      · dsimp only
        have hf := h.firedEq
        rw [h1c2] at hf
        simp at hf
        simp [hf]
      · rintro ⟨q, hq, hqid⟩
        rcases List.mem_append.mp hq with hq | hq
        · exact memLift (h.failHc ⟨q, hq, hqid⟩)
        · rw [List.mem_singleton] at hq
          subst hq
          exact memLift (hhc2 hqid hc)
    · rw [heq]
      show Inv req seen
        { s with
            out := s.out ++ [⟨failId, some e⟩] ++
              [⟨"check-stack", none⟩, ⟨"check-stack:complete", none⟩],
            fallbackTriggered := true, startBuildCount := 2,
            buildFired := s.buildFired + 1, buildActive := true }
      have h1c2 : s.startBuildCount = 1 := h1c
      have hsd : s.stackDone = true := by
        by_cases hsd : s.stackDone = true
        · exact hsd
        · simp [hsd] at hcl0; omega
      have memLift2 : ∀ {q : Progress}, q ∈ s.out ++ [(⟨failId, some e⟩ : Progress)] →
          q ∈ s.out ++ [(⟨failId, some e⟩ : Progress)] ++
            [(⟨"check-stack", none⟩ : Progress), ⟨"check-stack:complete", none⟩] :=
        fun hq => List.mem_append_left _ hq
      refine ⟨⟨r ++ [⟨failId, some e⟩] ++ [⟨"check-stack", none⟩, ⟨"check-stack:complete", none⟩],
          by rw [hr]; rfl⟩, h.ipBp, fun ht => h.completeIp ht,
        fun hh => memLift2 (memLift (h.headHc hh)), h.swapHead, by simp [hpend],
        by simp [hpend], by simp [hpend], by simp [hpend], fun _ => hds, by simp [hsd],
        ?_, fun _ => Or.inr (Or.inl hds), ?_, fun hdiff => hforX _ hdiff,
        fun _ => hpend, fun _ => Nat.le_refl 2, fun hrp => rfl,
        fun _ _ _ => Nat.le_refl 2, h.forErr⟩
      · dsimp only
        have hf := h.firedEq
        rw [h1c2] at hf
        simp at hf
        simp [hf]
      · rintro ⟨q, hq, hqid⟩
        rcases List.mem_append.mp hq with hq | hq
        · rcases List.mem_append.mp hq with hq | hq
          · exact memLift2 (memLift (h.failHc ⟨q, hq, hqid⟩))
          · rw [List.mem_singleton] at hq
            subst hq
            exact memLift2 (memLift (hhc2 hqid hc))
        · simp only [List.mem_cons, List.not_mem_nil, or_false] at hq
          have hqid2 : q.id = "check-stack" ∨ q.id = "check-stack:complete" := by
            rcases hq with hq | hq
            · exact Or.inl (by rw [hq])
            · exact Or.inr (by rw [hq])
          rcases hqid2 with hcs | hcs <;> rcases hqid with hqid | hqid <;>
            rw [hqid] at hcs <;> exact absurd hcs (by decide)

theorem obsNext_installedPath (s : St) (p : Progress) :
    (obsNext s p).installedPath = s.installedPath := by
  unfold obsNext; split <;> rfl

theorem obsNext_fallbackTriggered (s : St) (p : Progress) :
    (obsNext s p).fallbackTriggered = s.fallbackTriggered := by
  unfold obsNext; split <;> rfl

theorem inv_step_cancel (req : Request) (seen : Bool) (s : St) (h : Inv req seen s) :
    Inv req seen (step req s .cancel) := by
  simp only [step]
  by_cases hc : s.closed = true
  · rw [if_pos hc]; exact h
  · rw [Bool.not_eq_true] at hc
    rw [if_neg (by simp [hc])]
    exact ⟨h.headFirst, h.ipBp, h.completeIp, h.headHc, h.swapHead, h.pendDl, h.pendTrig,
      h.pendIp, h.pendHc, h.trigDl, h.countLe, h.firedEq,
      fun _ => Or.inl (by simp [closed_eq]), h.failHc, h.forTrig, h.forPend,
      h.activeCount, h.renActive, h.csCount, h.forErr⟩

theorem inv_step_dlNext (req : Request) (seen : Bool) (s : St) (h : Inv req seen s) :
    Inv req seen (step req s .dlNext) := by
  simp only [step]
  by_cases hg : (s.closed || s.dlSettled) = true
  · rw [if_pos hg]; exact h
  · rw [if_neg (by simp_all)]
    exact inv_obsNext req seen s ⟨"download-binary", none⟩ h (by decide) (by decide)

/-- Characterization of prepHandler on a failed preparation. -/
theorem prepHandler_some (s : St) (e : Err) :
    prepHandler s (some e) =
      if s.closed then { s with binaryPathError := some e }
      else completeHead { s with binaryPathError := some e } := rfl

theorem inv_step_prep (req : Request) (seen : Bool) (s : St) (r : Option Err)
    (h : Inv req seen s) : Inv req seen (step req s (.prep r)) := by
  simp only [step]
  by_cases hp : s.prepSettled = true
  · rw [if_pos hp]; exact h
  · rw [if_neg hp]
    cases r with
    | none => exact inv_ghost req seen s h s.binaryPathError true s.buildSettled
    | some e =>
      rw [prepHandler_some]
      have h1 : Inv req seen
          { s with prepSettled := true, binaryPathError := some e } :=
        inv_ghost req seen s h (some e) true s.buildSettled
      split
      · exact h1
      · rename_i hcl
        rw [Bool.not_eq_true] at hcl
        exact (inv_completeHead req seen _ h1 hcl).1

theorem inv_step_buildNext (req : Request) (seen : Bool) (s : St) (id' : String)
    (h : Inv req seen s) (hwf : id' ∈ builderNextIds) :
    Inv req seen (step req s (.buildNext id')) := by
  simp only [step]
  by_cases hg : (s.closed || !s.buildActive || s.buildSettled) = true
  · rw [if_pos hg]; exact h
  · rw [if_neg hg]
    have hact : s.buildActive = true := by
      revert hg
      cases s.closed <;> cases s.buildActive <;> cases s.buildSettled <;> decide
    simp only [buildNextHandler]
    by_cases hbc : id' = "build:complete"
    · rw [if_pos hbc]
      exact ⟨h.headFirst, h.ipBp, h.completeIp, h.headHc, h.swapHead, h.pendDl, h.pendTrig,
        h.pendIp, h.pendHc, h.trigDl, h.countLe, h.firedEq, h.seenIp, h.failHc, h.forTrig,
        h.forPend, h.activeCount, fun _ => hact, h.csCount, h.forErr⟩
    · rw [if_neg hbc]
      simp only [builderNextIds, List.mem_cons, List.not_mem_nil, or_false] at hwf
      rcases hwf with rfl | rfl | rfl | rfl | rfl | rfl <;>
        first
          | exact absurd rfl hbc
          | exact inv_obsNext req seen s _ h (by decide) (by decide)

theorem inv_step_buildError (req : Request) (seen : Bool) (s : St) (e : Err)
    (h : Inv req seen s) (hwf : e.id ∈ builderErrorIds) :
    Inv req seen (step req s (.buildError e)) := by
  simp only [step]
  by_cases hg : (s.closed || !s.buildActive || s.buildSettled) = true
  · rw [if_pos hg]; exact h
  · rw [if_neg hg]
    have hact : s.buildActive = true := by
      revert hg
      cases s.closed <;> cases s.buildActive <;> cases s.buildSettled <;> decide
    have h1 : Inv req seen { s with buildSettled := true } :=
      inv_ghost req seen s h s.binaryPathError s.prepSettled true
    have hfor : isDifferentPlatform req = true → False := by
      intro hdiff
      have hc1 := h.countLe
      rw [h.forTrig hdiff] at hc1
      have hc2 := h.activeCount hact
      by_cases hsd : s.stackDone = true <;> simp [hsd] at hc1 <;> omega
    simp only [buildErrorHandler, sendError]
    simp only [builderErrorIds, List.mem_cons, List.not_mem_nil, or_false] at hwf
    rcases hwf with h5 | h5 | h5 <;> rw [h5]
    · exact inv_obsError req seen _ _ h1
        (show replaceFirst "download" "download" "download-source" ≠ "check-stack" by decide)
        (fun hdiff => (hfor hdiff).elim)
    · exact inv_obsError req seen _ _ h1
        (show replaceFirst "setup" "download" "download-source" ≠ "check-stack" by decide)
        (fun hdiff => (hfor hdiff).elim)
    · exact inv_obsError req seen _ _ h1
        (show replaceFirst "build" "download" "download-source" ≠ "check-stack" by decide)
        (fun hdiff => (hfor hdiff).elim)

theorem inv_step_renameDone (req : Request) (seen : Bool) (s : St) (r : Option Err)
    (h : Inv req seen s) : Inv req seen (step req s (.renameDone r)) := by
  simp only [step]
  by_cases hrp : s.renamePending = true
  · rw [if_pos hrp]
    have h1 : Inv req seen { s with renamePending := false } :=
      ⟨h.headFirst, h.ipBp, h.completeIp, h.headHc, h.swapHead, h.pendDl, h.pendTrig,
        h.pendIp, h.pendHc, h.trigDl, h.countLe, h.firedEq, h.seenIp, h.failHc, h.forTrig,
        h.forPend, h.activeCount, fun hx => Bool.noConfusion hx, h.csCount, h.forErr⟩
    have hfor : isDifferentPlatform req = true → False := by
      intro hdiff
      have hc1 := h.countLe
      rw [h.forTrig hdiff] at hc1
      have hc2 := h.activeCount (h.renActive hrp)
      by_cases hsd : s.stackDone = true <;> simp [hsd] at hc1 <;> omega
    cases r with
    | some e =>
      exact inv_obsError req seen _ _ h1
        (show ("build" : String) ≠ "check-stack" by decide)
        (fun hdiff => (hfor hdiff).elim)
    | none =>
      simp only [renameHandler]
      have h2 : Inv req seen
          { s with renamePending := false, installedPath := some (binPath req) } :=
        inv_setIp req seen _ h1
      have h3 := inv_obsNext req seen _ ⟨"build:complete", none⟩ h2 (by decide) (by decide)
      refine inv_obsComplete req seen _ h3 ?_
      rw [obsNext_installedPath]
      rfl
  · rw [if_neg hrp]; exact h

/-- The toolchain-probe arrival records the probe outcome and calls
startBuildIfNeeded; this preserves the invariant. -/
theorem inv_stackArrival (req : Request) (seen : Bool) (s : St) (h : Inv req seen s)
    (hsd : s.stackDone = false) (se : Option Err) :
    Inv req seen (startBuildIfNeeded { s with stackDone := true, stackError := se }) := by
  have hcl0 := h.countLe
  rw [hsd] at hcl0
  rcases startBuildIfNeeded_cases { s with stackDone := true, stackError := se }
    with ⟨hclB, heq⟩ | ⟨hclB, h2, heq⟩ | ⟨hclB, h1c, ⟨e2, hse, heq⟩ | ⟨hse, heq⟩⟩ <;> rw [heq]
  · refine ⟨h.headFirst, h.ipBp, h.completeIp, h.headHc, h.swapHead, h.pendDl, h.pendTrig,
      h.pendIp, h.pendHc, h.trigDl, ?_, h.firedEq, h.seenIp, h.failHc, h.forTrig,
      h.forPend, h.activeCount, h.renActive, h.csCount, h.forErr⟩
    dsimp only
    by_cases htr : s.fallbackTriggered = true <;> simp [htr] at hcl0 ⊢ <;> omega
  · show Inv req seen
      { s with
          stackDone := true, stackError := se,
          startBuildCount := s.startBuildCount + 1 }
    have h2n : s.startBuildCount + 1 ≠ 2 := h2
    refine ⟨h.headFirst, h.ipBp, h.completeIp, h.headHc, h.swapHead, h.pendDl, h.pendTrig,
      h.pendIp, h.pendHc, h.trigDl, ?_, ?_, h.seenIp, h.failHc, h.forTrig,
      h.forPend, fun ha => Nat.le_succ_of_le (h.activeCount ha), h.renActive,
      fun e3 ht hcs => Nat.le_succ_of_le (h.csCount e3 ht hcs), h.forErr⟩
    · dsimp only
      by_cases htr : s.fallbackTriggered = true <;> simp [htr] at hcl0 ⊢ <;> omega
    · dsimp only
      have hf := h.firedEq
      by_cases htr : s.fallbackTriggered = true <;> simp [htr] at hcl0 <;>
        split at hf <;> split <;> omega
  · show Inv req seen
      { s with
          stackDone := true, stackError := se, startBuildCount := 2,
          buildFired := s.buildFired + 1,
          term := some (Terminal.error ⟨e2.code, "check-stack"⟩) }
    have h1c2 : s.startBuildCount = 1 := h1c
    have htrig : s.fallbackTriggered = true := by
      by_cases htr : s.fallbackTriggered = true
      · exact htr
      · simp [htr] at hcl0; omega
    refine ⟨h.headFirst, h.ipBp, by simp, h.headHc, h.swapHead, h.pendDl,
      h.pendTrig, h.pendIp, h.pendHc, h.trigDl, by dsimp only; simp [htrig],
      ?_, fun _ => Or.inl (by simp [closed_eq]), h.failHc, ?_,
      h.forPend, fun _ => Nat.le_refl 2, h.renActive, fun _ _ _ => Nat.le_refl 2, ?_⟩
    · dsimp only
      have hf := h.firedEq
      rw [h1c2] at hf
      simp at hf
      simp [hf]
    · intro hdiff
      rw [h.forTrig hdiff] at htrig
      exact absurd htrig (by decide)
    · intro hdiff
      rw [h.forTrig hdiff] at htrig
      exact absurd htrig (by decide)
  · show Inv req seen
      { s with
          stackDone := true, stackError := se, startBuildCount := 2,
          buildFired := s.buildFired + 1,
          out := s.out ++ [⟨"check-stack", none⟩, ⟨"check-stack:complete", none⟩],
          buildActive := true }
    have h1c2 : s.startBuildCount = 1 := h1c
    have htrig : s.fallbackTriggered = true := by
      by_cases htr : s.fallbackTriggered = true
      · exact htr
      · simp [htr] at hcl0; omega
    obtain ⟨r, hr⟩ := h.headFirst
    have memLift : ∀ {q : Progress}, q ∈ s.out →
        q ∈ s.out ++ [(⟨"check-stack", none⟩ : Progress), ⟨"check-stack:complete", none⟩] :=
      fun hq => List.mem_append_left _ hq
    refine ⟨⟨r ++ [⟨"check-stack", none⟩, ⟨"check-stack:complete", none⟩], by rw [hr]; rfl⟩,
      h.ipBp, fun ht => h.completeIp ht, fun hh => memLift (h.headHc hh), h.swapHead,
      h.pendDl, h.pendTrig, h.pendIp, fun hp => memLift (h.pendHc hp),
      fun _ => h.trigDl htrig, by dsimp only; simp [htrig], ?_, h.seenIp, ?_, ?_,
      h.forPend, fun _ => Nat.le_refl 2, fun _ => rfl, fun _ _ _ => Nat.le_refl 2,
      h.forErr⟩
    · dsimp only
      have hf := h.firedEq
      rw [h1c2] at hf
      simp at hf
      simp [hf]
    · rintro ⟨q, hq, hqid⟩
      rcases List.mem_append.mp hq with hq | hq
      · exact memLift (h.failHc ⟨q, hq, hqid⟩)
      · simp only [List.mem_cons, List.not_mem_nil, or_false] at hq
        have hqid2 : q.id = "check-stack" ∨ q.id = "check-stack:complete" := by
          rcases hq with hq | hq
          · exact Or.inl (by rw [hq])
          · exact Or.inr (by rw [hq])
        rcases hqid2 with hcs | hcs <;> rcases hqid with hqid | hqid <;>
          rw [hqid] at hcs <;> exact absurd hcs (by decide)
    · intro hdiff
      rw [h.forTrig hdiff] at htrig
      exact absurd htrig (by decide)

theorem inv_step_stack (req : Request) (seen : Bool) (s : St) (r : Except Err String)
    (h : Inv req seen s) : Inv req seen (step req s (.stack r)) := by
  simp only [step]
  by_cases hsd : s.stackDone = true
  · rw [if_pos hsd]; exact h
  · rw [Bool.not_eq_true] at hsd
    rw [if_neg (by simp [hsd])]
    cases r with
    | ok v => exact inv_stackArrival req seen s h hsd s.stackError
    | error e => exact inv_stackArrival req seen s h hsd (some e)

theorem inv_step_checkBin (req : Request) (seen : Bool) (s : St) (r : Option Err)
    (h : Inv req seen s) : Inv req seen (step req s (.checkBin r)) := by
  simp only [step]
  by_cases hpd : s.checkBinaryPending = true
  · rw [if_pos hpd]
    have h1 : Inv req seen { s with checkBinaryPending := false } :=
      ⟨h.headFirst, h.ipBp, h.completeIp, h.headHc, h.swapHead,
        fun hx => Bool.noConfusion hx, fun hx => Bool.noConfusion hx,
        fun hx => Bool.noConfusion hx, fun hx => Bool.noConfusion hx, h.trigDl, h.countLe,
        h.firedEq, h.seenIp, h.failHc, h.forTrig, fun _ => rfl, h.activeCount,
        h.renActive, h.csCount, h.forErr⟩
    have hfor : isDifferentPlatform req = false := by
      cases hdf : isDifferentPlatform req with
      | false => rfl
      | true =>
        rw [h.forPend hdf] at hpd
        exact absurd hpd (by decide)
    cases r with
    | some e =>
      simp only [checkBinHandler]
      exact inv_trigger req seen { s with checkBinaryPending := false } h1
        "check-binary:fail" _ (h.pendDl hpd) (h.pendTrig hpd) rfl hfor
        (fun _ _ => h.pendHc hpd)
    | none =>
      simp only [checkBinHandler]
      have h2 := inv_obsNext req seen _ ⟨"check-binary:complete", none⟩ h1
        (by decide) (by decide)
      refine inv_obsComplete req seen _ h2 ?_
      rw [obsNext_installedPath]
      exact h.pendIp hpd
  · rw [if_neg hpd]; exact h

theorem inv_step_dlComplete (req : Request) (seen : Bool) (s : St)
    (h : Inv req seen s) (hseen : seen = true) :
    Inv req seen (step req s .dlComplete) := by
  simp only [step]
  by_cases hg : (s.closed || s.dlSettled) = true
  · rw [if_pos hg]; exact h
  · rw [if_neg hg]
    have hcl : s.closed = false := by revert hg; cases s.closed <;> cases s.dlSettled <;> decide
    have hds0 : s.dlSettled = false := by
      revert hg; cases s.closed <;> cases s.dlSettled <;> decide
    obtain ⟨hip, hhd⟩ : s.installedPath = some (binPath req) ∧ s.headDone = true := by
      rcases h.seenIp hseen with h1 | h1 | h1
      · rw [h1] at hcl; exact absurd hcl (by decide)
      · rw [h1] at hds0; exact absurd hds0 (by decide)
      · exact h1
    have htrig : s.fallbackTriggered = false := by
      cases htr : s.fallbackTriggered with
      | false => rfl
      | true =>
        rw [h.trigDl htr] at hds0
        exact absurd hds0 (by decide)
    have h1 : Inv req seen { s with dlSettled := true } :=
      ⟨h.headFirst, h.ipBp, h.completeIp, h.headHc, h.swapHead, fun _ => rfl, h.pendTrig,
        h.pendIp, h.pendHc, fun _ => rfl, h.countLe, h.firedEq,
        fun _ => Or.inr (Or.inl rfl), h.failHc, h.forTrig, h.forPend, h.activeCount,
        h.renActive, h.csCount, h.forErr⟩
    simp only [dlCompleteHandler]
    have h2 := inv_obsNext req seen _ ⟨"download-binary:complete", none⟩ h1
      (by decide) (by decide)
    by_cases hdf : isDifferentPlatform req = true
    · rw [if_pos hdf]
      refine inv_obsComplete req seen _ h2 ?_
      rw [obsNext_installedPath]
      exact hip
    · rw [if_neg hdf]
      rw [Bool.not_eq_true] at hdf
      have h3 := inv_obsNext req seen _ ⟨"check-binary", none⟩ h2 (by decide) (by decide)
      have hcmem : hcEv ∈ (obsNext (obsNext { s with dlSettled := true }
          ⟨"download-binary:complete", none⟩) ⟨"check-binary", none⟩).out := by
        have hm := h.headHc hhd
        unfold obsNext
        split <;> (try split) <;>
          first
            | exact hm
            | exact List.mem_append_left _ hm
            | exact List.mem_append_left _ (List.mem_append_left _ hm)
      have hipX : (obsNext (obsNext { s with dlSettled := true }
          ⟨"download-binary:complete", none⟩) ⟨"check-binary", none⟩).installedPath
            = some (binPath req) := by
        rw [obsNext_installedPath, obsNext_installedPath]
        exact hip
      have hdsX : (obsNext (obsNext { s with dlSettled := true }
          ⟨"download-binary:complete", none⟩) ⟨"check-binary", none⟩).dlSettled = true := by
        unfold obsNext
        split <;> (try split) <;> rfl
      exact { h3 with
        pendDl := fun _ => hdsX
        pendTrig := fun _ => by
          rw [obsNext_fallbackTriggered, obsNext_fallbackTriggered]
          exact htrig
        pendIp := fun _ => hipX
        pendHc := fun _ => hcmem
        forPend := fun hdiff => by rw [hdiff] at hdf; exact absurd hdf (by decide) }

theorem inv_step_dlError (req : Request) (seen : Bool) (s : St) (e : Err)
    (h : Inv req seen s) : Inv req seen (step req s (.dlError e)) := by
  simp only [step]
  by_cases hg : (s.closed || s.dlSettled) = true
  · rw [if_pos hg]; exact h
  · rw [if_neg hg]
    have hcl : s.closed = false := by
      revert hg; cases s.closed <;> cases s.dlSettled <;> decide
    have hds0 : s.dlSettled = false := by
      revert hg; cases s.closed <;> cases s.dlSettled <;> decide
    have hpend : s.checkBinaryPending = false := by
      cases hp : s.checkBinaryPending with
      | false => rfl
      | true => rw [h.pendDl hp] at hds0; exact absurd hds0 (by decide)
    have htrig : s.fallbackTriggered = false := by
      cases htr : s.fallbackTriggered with
      | false => rfl
      | true => rw [h.trigDl htr] at hds0; exact absurd hds0 (by decide)
    have h1 : Inv req seen { s with dlSettled := true } :=
      ⟨h.headFirst, h.ipBp, h.completeIp, h.headHc, h.swapHead, fun _ => rfl, h.pendTrig,
        h.pendIp, h.pendHc, fun _ => rfl, h.countLe, h.firedEq,
        fun _ => Or.inr (Or.inl rfl), h.failHc, h.forTrig, h.forPend, h.activeCount,
        h.renActive, h.csCount, h.forErr⟩
    simp only [dlErrorHandler]
    by_cases hsw : s.dlErrHandlerSwapped = true
    · rw [if_pos (show ({ s with dlSettled := true } : St).dlErrHandlerSwapped = true
        from hsw)]
      simp only [handleBinaryDownloadError]
      by_cases hdf : isDifferentPlatform req = true
      · rw [if_pos hdf]
        exact inv_obsError req seen _ _ h1
          (show ("download-binary" : String) ≠ "check-stack" by decide)
          (fun _ => Or.inr rfl)
      · rw [if_neg hdf]
        rw [Bool.not_eq_true] at hdf
        exact inv_trigger req seen _ h1 "download-binary:fail" _ rfl htrig hpend hdf
          (fun _ _ => h.headHc (h.swapHead hsw))
    · rw [if_neg (show ¬(({ s with dlSettled := true } : St).dlErrHandlerSwapped = true)
        from hsw)]
      by_cases hcond : e.code = "ERR_UNSUPPORTED_PLATFORM" ∧ isDifferentPlatform req = false
      · rw [if_pos hcond]
        exact inv_trigger req seen _ h1 "head:fail" _ rfl htrig hpend hcond.2
          (by intro hx _; rcases hx with hx | hx <;> exact absurd hx (by decide))
      · rw [if_neg hcond]
        exact inv_obsError req seen _ _ h1
          (show ("head" : String) ≠ "check-stack" by decide)
          (fun _ => Or.inl rfl)

theorem inv_step_dlFilter (req : Request) (seen : Bool) (s : St) (p : String)
    (h : Inv req seen s) :
    Inv req (seenUpd seen (.dlFilter p)) (step req s (.dlFilter p)) := by
  simp only [step, seenUpd]
  by_cases hg : (s.closed || s.dlSettled) = true
  · rw [if_pos hg]
    refine { h with seenIp := ?_ }
    intro _
    cases hcl : s.closed with
    | true => exact Or.inl rfl
    | false =>
      have hds : s.dlSettled = true := by
        revert hg hcl; cases s.closed <;> cases s.dlSettled <;> decide
      exact Or.inr (Or.inl hds)
  · rw [if_neg hg]
    have hcl : s.closed = false := by
      revert hg; cases s.closed <;> cases s.dlSettled <;> decide
    simp only [dlFilterHandler]
    obtain ⟨hI1, hhd1, hip1, hds1⟩ := inv_completeHead req seen s h hcl
    by_cases hacc : basenameDropExt p ".exe" = "purs"
    · rw [if_pos hacc]
      exact { inv_setIp req seen _ hI1 with
        seenIp := fun _ => Or.inr (Or.inr ⟨rfl, hhd1⟩) }
    · rw [if_neg hacc]
      have hseen2 : (seen || decide (basenameDropExt p ".exe" = "purs")) = seen := by
        simp [hacc]
      rw [hseen2]
      exact hI1

/-- One step preserves the invariant, given the schedule side condition. -/
theorem step_inv (req : Request) (seen : Bool) (s : St) (i : Input) (h : Inv req seen s)
    (hwf : wfCondB seen i = true) : Inv req (seenUpd seen i) (step req s i) := by
  cases i with
  | prep r => exact inv_step_prep req seen s r h
  | dlFilter p => exact inv_step_dlFilter req seen s p h
  | dlNext => exact inv_step_dlNext req seen s h
  | dlError e => exact inv_step_dlError req seen s e h
  | dlComplete => exact inv_step_dlComplete req seen s h hwf
  | stack r => exact inv_step_stack req seen s r h
  | checkBin r => exact inv_step_checkBin req seen s r h
  | buildNext id => exact inv_step_buildNext req seen s id h (of_decide_eq_true hwf)
  | buildError e => exact inv_step_buildError req seen s e h (of_decide_eq_true hwf)
  | renameDone r => exact inv_step_renameDone req seen s r h
  | cancel => exact inv_step_cancel req seen s h

/-- A well-formed schedule preserves the invariant along the whole fold. -/
theorem foldl_inv (req : Request) :
    ∀ (l : List Input) (seen : Bool) (s : St), Inv req seen s → wfInputs seen l = true →
      Inv req (l.foldl seenUpd seen) (l.foldl (step req) s) := by
  intro l
  induction l with
  | nil => intro seen s h _; exact h
  | cons i l ih =>
    intro seen s h hwf
    rw [show wfInputs seen (i :: l) = (wfCondB seen i && wfInputs (seenUpd seen i) l)
      from rfl] at hwf
    rw [Bool.and_eq_true] at hwf
    obtain ⟨hw1, hw2⟩ := hwf
    exact ih (seenUpd seen i) (step req s i) (step_inv req seen s i h hw1) hw2

/-- The invariant holds at the end of every well-formed run of a valid
request. -/
theorem run_inv (req : Request) (l : List Input) (hv : validate req = none) (hw : Wf l) :
    Inv req (l.foldl seenUpd false) (run req l) :=
  foldl_inv req l false (startState req) (startState_inv req hv) hw

theorem obsNext_buildFired (s : St) (p : Progress) :
    (obsNext s p).buildFired = s.buildFired := by
  unfold obsNext; split <;> rfl

theorem obsNext_cancelled (s : St) (p : Progress) :
    (obsNext s p).cancelled = s.cancelled := by
  unfold obsNext; split <;> rfl

theorem obsComplete_buildFired (s : St) :
    (obsComplete s).buildFired = s.buildFired := by
  unfold obsComplete; split <;> rfl

theorem obsError_buildFired (s : St) (e : Err) :
    (obsError s e).buildFired = s.buildFired := by
  unfold obsError; split <;> rfl

theorem sendError_buildFired (s : St) (e : Err) (tag : String) :
    (sendError s e tag).buildFired = s.buildFired := by
  unfold sendError; exact obsError_buildFired _ _

theorem completeHead_buildFired (s : St) :
    (completeHead s).buildFired = s.buildFired := by
  unfold completeHead
  split
  · rfl
  · dsimp only
    split
    · rw [sendError_buildFired, obsNext_buildFired]
    · dsimp only
      rw [obsNext_buildFired]

/-- When a call to startBuildIfNeeded makes the barrier fire, the
observer was live, it was the second feint call, and the body either
surfaces the recorded probe failure tagged check-stack or emits the
check-stack events and activates the build subscription. -/
theorem sbin_fired (s : St) (hlt : s.buildFired < (startBuildIfNeeded s).buildFired) :
    s.closed = false ∧ s.startBuildCount = 1 ∧
      (startBuildIfNeeded s).stackDone = s.stackDone ∧
      (startBuildIfNeeded s).fallbackTriggered = s.fallbackTriggered ∧
      (∀ e2, s.stackError = some e2 →
        startBuildIfNeeded s =
          { s with startBuildCount := 2, buildFired := s.buildFired + 1,
                   term := some (.error ⟨e2.code, "check-stack"⟩) }) ∧
      (s.stackError = none →
        startBuildIfNeeded s =
          { s with startBuildCount := 2, buildFired := s.buildFired + 1,
                   out := s.out ++ [⟨"check-stack", none⟩, ⟨"check-stack:complete", none⟩],
                   buildActive := true }) := by
  rcases startBuildIfNeeded_cases s
    with ⟨hclB, heq⟩ | ⟨hclB, h2, heq⟩ | ⟨hclB, h1c, ⟨e2, hse, heq⟩ | ⟨hse, heq⟩⟩
  · rw [heq] at hlt
    exact absurd hlt (Nat.lt_irrefl _)
  · rw [heq] at hlt
    exact absurd hlt (Nat.lt_irrefl _)
  · refine ⟨hclB, h1c, by rw [heq], by rw [heq], ?_, ?_⟩
    · intro e3 hse3
      rw [hse] at hse3
      obtain rfl : e2 = e3 := by simpa using hse3
      exact heq
    · intro hse3
      rw [hse] at hse3
      exact absurd hse3 (by simp)
  · refine ⟨hclB, h1c, by rw [heq], by rw [heq], ?_, fun _ => heq⟩
    intro e3 hse3
    rw [hse] at hse3
    exact absurd hse3 (by simp)

theorem closed_false_cancelled (s : St) (h : s.closed = false) : s.cancelled = false := by
  cases htc : s.cancelled with
  | false => rfl
  | true => rw [closed_eq, htc] at h; simp at h

/-- Firing analysis of a fallback-arming site. -/
theorem sbin_trigger_fired (s : St) (failId : String) (e : Err) (hcl : s.closed = false)
    (hlt : s.buildFired < (startBuildIfNeeded
      { (obsNext s ⟨failId, some e⟩) with fallbackTriggered := true }).buildFired) :
    (startBuildIfNeeded
        { (obsNext s ⟨failId, some e⟩) with fallbackTriggered := true }).stackDone
      = s.stackDone ∧
    (startBuildIfNeeded
        { (obsNext s ⟨failId, some e⟩) with fallbackTriggered := true }).fallbackTriggered
      = true ∧
    s.startBuildCount = 1 ∧
    (∀ e2, (startBuildIfNeeded
        { (obsNext s ⟨failId, some e⟩) with fallbackTriggered := true }).stackError = some e2 →
      (startBuildIfNeeded
        { (obsNext s ⟨failId, some e⟩) with fallbackTriggered := true }).term
        = some (Terminal.error ⟨e2.code, "check-stack"⟩)) ∧
    ((startBuildIfNeeded
        { (obsNext s ⟨failId, some e⟩) with fallbackTriggered := true }).stackError = none →
      (∃ mid, (startBuildIfNeeded
        { (obsNext s ⟨failId, some e⟩) with fallbackTriggered := true }).out
          = s.out ++ mid ++ [⟨"check-stack", none⟩, ⟨"check-stack:complete", none⟩]) ∧
      (startBuildIfNeeded
        { (obsNext s ⟨failId, some e⟩) with fallbackTriggered := true }).buildActive
        = true) := by
  rw [show obsNext s ⟨failId, some e⟩ = { s with out := s.out ++ [⟨failId, some e⟩] } from by
    unfold obsNext; simp [hcl]] at hlt ⊢
  dsimp only at hlt ⊢
  obtain ⟨hclB, h1c, hsd, htr, hsome, hnone⟩ :=
    sbin_fired
      { s with out := s.out ++ [⟨failId, some e⟩], fallbackTriggered := true } hlt
  refine ⟨hsd, by rw [htr], h1c, ?_, ?_⟩
  · intro e2 hse2
    obtain hse3 | ⟨e4, hse3⟩ := Option.eq_none_or_eq_some s.stackError
    · rw [hnone (by exact hse3)] at hse2
      exact absurd (hse3.symm.trans (show s.stackError = some e2 from hse2)) (by simp)
    · rw [hsome e4 (by exact hse3)] at hse2 ⊢
      obtain rfl : e4 = e2 := by
        have h5 : s.stackError = some e2 := hse2
        rw [hse3] at h5
        simpa using h5
      rfl
  · intro hse2
    obtain hse3 | ⟨e4, hse3⟩ := Option.eq_none_or_eq_some s.stackError
    · rw [hnone (by exact hse3)]
      exact ⟨⟨[⟨failId, some e⟩], by simp⟩, rfl⟩
    · rw [hsome e4 (by exact hse3)] at hse2
      have h5 : s.stackError = (none : Option Err) := hse2
      rw [hse3] at h5
      exact absurd h5 (by simp)

/-- When a step makes the decision barrier fire, the toolchain probe has
arrived, a fallback trigger has arrived, the consumer had not cancelled,
and the body behaves per the recorded probe status. -/
theorem fired_step (req : Request) (seen : Bool) (s : St) (i : Input) (h : Inv req seen s)
    (hlt : s.buildFired < (step req s i).buildFired) :
    (step req s i).stackDone = true ∧ (step req s i).fallbackTriggered = true ∧
      s.cancelled = false ∧
      (∀ e2, (step req s i).stackError = some e2 →
        (step req s i).term = some (Terminal.error ⟨e2.code, "check-stack"⟩)) ∧
      ((step req s i).stackError = none →
        (∃ mid, (step req s i).out = s.out ++ mid ++
          [⟨"check-stack", none⟩, ⟨"check-stack:complete", none⟩]) ∧
        (step req s i).buildActive = true) := by
  cases i with
  | prep r =>
    exfalso
    have hfe : (step req s (.prep r)).buildFired = s.buildFired := by
      simp only [step]
      by_cases hp : s.prepSettled = true
      · rw [if_pos hp]
      · rw [if_neg hp]
        cases r with
        | none => rfl
        | some e =>
          rw [prepHandler_some]
          split
          · rfl
          · rw [completeHead_buildFired]
    rw [hfe] at hlt
    exact Nat.lt_irrefl _ hlt
  | dlFilter p =>
    exfalso
    have hfe : (step req s (.dlFilter p)).buildFired = s.buildFired := by
      simp only [step]
      by_cases hg : (s.closed || s.dlSettled) = true
      · rw [if_pos hg]
      · rw [if_neg hg]
        simp only [dlFilterHandler]
        split
        · dsimp only
          rw [completeHead_buildFired]
        · rw [completeHead_buildFired]
    rw [hfe] at hlt
    exact Nat.lt_irrefl _ hlt
  | dlNext =>
    exfalso
    have hfe : (step req s .dlNext).buildFired = s.buildFired := by
      simp only [step]
      by_cases hg : (s.closed || s.dlSettled) = true
      · rw [if_pos hg]
      · rw [if_neg hg]
        rw [obsNext_buildFired]
    rw [hfe] at hlt
    exact Nat.lt_irrefl _ hlt
  | dlComplete =>
    exfalso
    have hfe : (step req s .dlComplete).buildFired = s.buildFired := by
      simp only [step]
      by_cases hg : (s.closed || s.dlSettled) = true
      · rw [if_pos hg]
      · rw [if_neg hg]
        simp only [dlCompleteHandler]
        split
        · rw [obsComplete_buildFired, obsNext_buildFired]
        · dsimp only
          rw [obsNext_buildFired, obsNext_buildFired]
    rw [hfe] at hlt
    exact Nat.lt_irrefl _ hlt
  | buildNext id' =>
    exfalso
    have hfe : (step req s (.buildNext id')).buildFired = s.buildFired := by
      simp only [step]
      by_cases hg : (s.closed || !s.buildActive || s.buildSettled) = true
      · rw [if_pos hg]
      · rw [if_neg hg]
        simp only [buildNextHandler]
        split
        · rfl
        · rw [obsNext_buildFired]
    rw [hfe] at hlt
    exact Nat.lt_irrefl _ hlt
  | buildError e =>
    exfalso
    have hfe : (step req s (.buildError e)).buildFired = s.buildFired := by
      simp only [step]
      by_cases hg : (s.closed || !s.buildActive || s.buildSettled) = true
      · rw [if_pos hg]
      · rw [if_neg hg]
        simp only [buildErrorHandler]
        rw [sendError_buildFired]
    rw [hfe] at hlt
    exact Nat.lt_irrefl _ hlt
  | renameDone r =>
    exfalso
    have hfe : (step req s (.renameDone r)).buildFired = s.buildFired := by
      simp only [step]
      by_cases hp : s.renamePending = true
      · rw [if_pos hp]
        cases r with
        | some e => simp only [renameHandler]; rw [sendError_buildFired]
        | none =>
          simp only [renameHandler]
          rw [obsComplete_buildFired, obsNext_buildFired]
      · rw [if_neg hp]
    rw [hfe] at hlt
    exact Nat.lt_irrefl _ hlt
  | cancel =>
    exfalso
    have hfe : (step req s .cancel).buildFired = s.buildFired := by
      simp only [step]
      by_cases hc : s.closed = true
      · rw [if_pos hc]
      · rw [if_neg hc]
    rw [hfe] at hlt
    exact Nat.lt_irrefl _ hlt
  | stack r =>
    simp only [step] at hlt ⊢
    by_cases hsd : s.stackDone = true
    · rw [if_pos hsd] at hlt
      exact absurd hlt (Nat.lt_irrefl _)
    · rw [if_neg hsd] at hlt ⊢
      rw [Bool.not_eq_true] at hsd
      have hmain : ∀ se : Option Err,
          s.buildFired < (startBuildIfNeeded
            { s with stackDone := true, stackError := se }).buildFired →
          (startBuildIfNeeded
            { s with stackDone := true, stackError := se }).stackDone = true ∧
          (startBuildIfNeeded
            { s with stackDone := true, stackError := se }).fallbackTriggered = true ∧
          s.cancelled = false ∧
          (∀ e2, (startBuildIfNeeded
              { s with stackDone := true, stackError := se }).stackError = some e2 →
            (startBuildIfNeeded
              { s with stackDone := true, stackError := se }).term
              = some (Terminal.error ⟨e2.code, "check-stack"⟩)) ∧
          ((startBuildIfNeeded
              { s with stackDone := true, stackError := se }).stackError = none →
            (∃ mid, (startBuildIfNeeded
              { s with stackDone := true, stackError := se }).out = s.out ++ mid ++
                [⟨"check-stack", none⟩, ⟨"check-stack:complete", none⟩]) ∧
            (startBuildIfNeeded
              { s with stackDone := true, stackError := se }).buildActive = true) := by
        intro se hlt2
        obtain ⟨hclB, h1c, hsdE, htrE, hsome, hnone⟩ :=
          sbin_fired { s with stackDone := true, stackError := se } hlt2
        have h1c2 : s.startBuildCount = 1 := h1c
        have htrig : s.fallbackTriggered = true := by
          have hcl0 := h.countLe
          rw [hsd, h1c2] at hcl0
          by_cases htr : s.fallbackTriggered = true
          · exact htr
          · simp [htr] at hcl0
        have hcanc : s.cancelled = false := closed_false_cancelled _ hclB
        refine ⟨by rw [hsdE], by rw [htrE]; exact htrig, hcanc, ?_, ?_⟩
        · intro e2 hse2
          obtain hse3 | ⟨e4, hse3⟩ := Option.eq_none_or_eq_some se
          · rw [hnone (by exact hse3)] at hse2
            have h5 : se = some e2 := hse2
            rw [hse3] at h5
            exact absurd h5 (by simp)
          · rw [hsome e4 (by exact hse3)] at hse2 ⊢
            obtain rfl : e4 = e2 := by
              have h5 : se = some e2 := hse2
              rw [hse3] at h5
              simpa using h5
            rfl
        · intro hse2
          obtain hse3 | ⟨e4, hse3⟩ := Option.eq_none_or_eq_some se
          · rw [hnone (by exact hse3)]
            exact ⟨⟨[], by simp⟩, rfl⟩
          · rw [hsome e4 (by exact hse3)] at hse2
            have h5 : se = (none : Option Err) := hse2
            rw [hse3] at h5
            exact absurd h5 (by simp)
      cases r with
      | ok v => exact hmain s.stackError hlt
      | error e => exact hmain (some e) hlt
  | dlError e =>
    simp only [step] at hlt ⊢
    by_cases hg : (s.closed || s.dlSettled) = true
    · rw [if_pos hg] at hlt
      exact absurd hlt (Nat.lt_irrefl _)
    · rw [if_neg hg] at hlt ⊢
      have hcl : s.closed = false := by
        revert hg; cases s.closed <;> cases s.dlSettled <;> decide
      have hds0 : s.dlSettled = false := by
        revert hg; cases s.closed <;> cases s.dlSettled <;> decide
      have htrig0 : s.fallbackTriggered = false := by
        cases htr : s.fallbackTriggered with
        | false => rfl
        | true => rw [h.trigDl htr] at hds0; exact absurd hds0 (by decide)
      have hcanc : s.cancelled = false := closed_false_cancelled _ hcl
      simp only [dlErrorHandler] at hlt ⊢
      by_cases hsw : ({ s with dlSettled := true } : St).dlErrHandlerSwapped = true
      · rw [if_pos hsw] at hlt ⊢
        simp only [handleBinaryDownloadError] at hlt ⊢
        by_cases hdf : isDifferentPlatform req = true
        · rw [if_pos hdf] at hlt
          rw [obsError_buildFired] at hlt
          exact absurd hlt (Nat.lt_irrefl _)
        · rw [if_neg hdf] at hlt ⊢
          obtain ⟨hsdE, htrE, h1c, hsome, hnone⟩ :=
            sbin_trigger_fired { s with dlSettled := true } "download-binary:fail"
              ⟨e.code, "download-binary"⟩ hcl hlt
          have h1c2 : s.startBuildCount = 1 := h1c
          have hstack : s.stackDone = true := by
            have hcl0 := h.countLe
            rw [htrig0, h1c2] at hcl0
            by_cases hx : s.stackDone = true
            · exact hx
            · simp [hx] at hcl0
          exact ⟨by rw [hsdE]; exact hstack, htrE, hcanc, hsome, hnone⟩
      · rw [if_neg hsw] at hlt ⊢
        by_cases hcond :
            e.code = "ERR_UNSUPPORTED_PLATFORM" ∧ isDifferentPlatform req = false
        · rw [if_pos hcond] at hlt ⊢
          obtain ⟨hsdE, htrE, h1c, hsome, hnone⟩ :=
            sbin_trigger_fired { s with dlSettled := true } "head:fail"
              ⟨e.code, "head"⟩ hcl hlt
          have h1c2 : s.startBuildCount = 1 := h1c
          have hstack : s.stackDone = true := by
            have hcl0 := h.countLe
            rw [htrig0, h1c2] at hcl0
            by_cases hx : s.stackDone = true
            · exact hx
            · simp [hx] at hcl0
          exact ⟨by rw [hsdE]; exact hstack, htrE, hcanc, hsome, hnone⟩
        · rw [if_neg hcond] at hlt
          rw [sendError_buildFired] at hlt
          exact absurd hlt (Nat.lt_irrefl _)
  | checkBin r =>
    simp only [step] at hlt ⊢
    by_cases hpd : s.checkBinaryPending = true
    · rw [if_pos hpd] at hlt ⊢
      cases r with
      | none =>
        exfalso
        simp only [checkBinHandler] at hlt
        rw [obsComplete_buildFired, obsNext_buildFired] at hlt
        exact Nat.lt_irrefl _ hlt
      | some e =>
        simp only [checkBinHandler] at hlt ⊢
        by_cases hcl : ({ s with checkBinaryPending := false } : St).closed = true
        · exfalso
          rw [show obsNext { s with checkBinaryPending := false }
              ⟨"check-binary:fail", some ⟨e.code, "check-binary"⟩⟩
              = { s with checkBinaryPending := false } from by
            unfold obsNext; simp [hcl]] at hlt
          rw [show startBuildIfNeeded
              { s with checkBinaryPending := false, fallbackTriggered := true }
              = { s with checkBinaryPending := false, fallbackTriggered := true } from by
            unfold startBuildIfNeeded
            have hcx : ({ s with
                checkBinaryPending := false,
                fallbackTriggered := true } : St).closed = true := hcl
            simp [hcx]] at hlt
          exact Nat.lt_irrefl _ hlt
        · rw [Bool.not_eq_true] at hcl
          obtain ⟨hsdE, htrE, h1c, hsome, hnone⟩ :=
            sbin_trigger_fired { s with checkBinaryPending := false } "check-binary:fail"
              ⟨e.code, "check-binary"⟩ hcl hlt
          have h1c2 : s.startBuildCount = 1 := h1c
          have htrig0 : s.fallbackTriggered = false := h.pendTrig hpd
          have hstack : s.stackDone = true := by
            have hcl0 := h.countLe
            rw [htrig0, h1c2] at hcl0
            by_cases hx : s.stackDone = true
            · exact hx
            · simp [hx] at hcl0
          have hcanc : s.cancelled = false := closed_false_cancelled _ hcl
          exact ⟨by rw [hsdE]; exact hstack, htrE, hcanc, hsome, hnone⟩
    · rw [if_neg hpd] at hlt
      exact absurd hlt (Nat.lt_irrefl _)

/-- Once the head milestone is done, completeHead (the only reader of
binaryPathError, wrapped in once) does nothing. -/
theorem completeHead_of_headDone (s : St) (hh : s.headDone = true) : completeHead s = s := by
  unfold completeHead; rw [if_pos hh]

theorem obsNext_headDone (s : St) (p : Progress) :
    (obsNext s p).headDone = s.headDone := by
  unfold obsNext; split <;> rfl

theorem obsNext_bpeSurfaced (s : St) (p : Progress) :
    (obsNext s p).bpeSurfaced = s.bpeSurfaced := by
  unfold obsNext; split <;> rfl

theorem obsComplete_headDone (s : St) :
    (obsComplete s).headDone = s.headDone := by
  unfold obsComplete; split <;> rfl

theorem obsComplete_bpeSurfaced (s : St) :
    (obsComplete s).bpeSurfaced = s.bpeSurfaced := by
  unfold obsComplete; split <;> rfl

theorem obsError_headDone (s : St) (e : Err) :
    (obsError s e).headDone = s.headDone := by
  unfold obsError; split <;> rfl

theorem obsError_bpeSurfaced (s : St) (e : Err) :
    (obsError s e).bpeSurfaced = s.bpeSurfaced := by
  unfold obsError; split <;> rfl

theorem sbin_bpeSurfaced (s : St) :
    (startBuildIfNeeded s).bpeSurfaced = s.bpeSurfaced := by
  rcases startBuildIfNeeded_cases s with ⟨_, h⟩ | ⟨_, _, h⟩ | ⟨_, _, ⟨e, _, h⟩ | ⟨_, h⟩⟩ <;>
    rw [h]

/-- After the head milestone, the head flag stays set and the
preparation error is never surfaced by any further step. -/
theorem step_headDone_bpeSurfaced (req : Request) (s : St) (i : Input)
    (hh : s.headDone = true) :
    (step req s i).headDone = true ∧ (step req s i).bpeSurfaced = s.bpeSurfaced := by
  cases i with
  | prep r =>
    simp only [step]
    by_cases hp : s.prepSettled = true
    · rw [if_pos hp]; exact ⟨hh, rfl⟩
    · rw [if_neg hp]
      cases r with
      | none => exact ⟨hh, rfl⟩
      | some e =>
        rw [prepHandler_some]
        split
        · exact ⟨hh, rfl⟩
        · rw [completeHead_of_headDone _ (show ({ s with
            prepSettled := true,
            binaryPathError := some e } : St).headDone = true from hh)]
          exact ⟨hh, rfl⟩
  | dlFilter p =>
    simp only [step]
    by_cases hg : (s.closed || s.dlSettled) = true
    · rw [if_pos hg]; exact ⟨hh, rfl⟩
    · rw [if_neg hg]
      simp only [dlFilterHandler]
      rw [completeHead_of_headDone s hh]
      split
      · exact ⟨hh, rfl⟩
      · exact ⟨hh, rfl⟩
  | dlNext =>
    simp only [step]
    by_cases hg : (s.closed || s.dlSettled) = true
    · rw [if_pos hg]; exact ⟨hh, rfl⟩
    · rw [if_neg hg]
      rw [obsNext_headDone, obsNext_bpeSurfaced]
      exact ⟨hh, rfl⟩
  | dlError e =>
    simp only [step]
    by_cases hg : (s.closed || s.dlSettled) = true
    · rw [if_pos hg]; exact ⟨hh, rfl⟩
    · rw [if_neg hg]
      simp only [dlErrorHandler]
      split
      · simp only [handleBinaryDownloadError]
        split
        · rw [obsError_headDone, obsError_bpeSurfaced]
          exact ⟨hh, rfl⟩
        · constructor
          · rw [sbin_headDone]
            dsimp only
            rw [obsNext_headDone]
            exact hh
          · rw [sbin_bpeSurfaced]
            dsimp only
            rw [obsNext_bpeSurfaced]
      · split
        · constructor
          · rw [sbin_headDone]
            dsimp only
            rw [obsNext_headDone]
            exact hh
          · rw [sbin_bpeSurfaced]
            dsimp only
            rw [obsNext_bpeSurfaced]
        · simp only [sendError]
          rw [obsError_headDone, obsError_bpeSurfaced]
          exact ⟨hh, rfl⟩
  | dlComplete =>
    simp only [step]
    by_cases hg : (s.closed || s.dlSettled) = true
    · rw [if_pos hg]; exact ⟨hh, rfl⟩
    · rw [if_neg hg]
      simp only [dlCompleteHandler]
      split
      · rw [obsComplete_headDone, obsComplete_bpeSurfaced,
          obsNext_headDone, obsNext_bpeSurfaced]
        exact ⟨hh, rfl⟩
      · constructor
        · dsimp only
          rw [obsNext_headDone, obsNext_headDone]
          exact hh
        · dsimp only
          rw [obsNext_bpeSurfaced, obsNext_bpeSurfaced]
  | stack r =>
    simp only [step]
    by_cases hsd : s.stackDone = true
    · rw [if_pos hsd]; exact ⟨hh, rfl⟩
    · rw [if_neg hsd]
      cases r with
      | ok v =>
        simp only [stackHandler]
        constructor
        · rw [sbin_headDone]; exact hh
        · rw [sbin_bpeSurfaced]
      | error e =>
        simp only [stackHandler]
        constructor
        · rw [sbin_headDone]; exact hh
        · rw [sbin_bpeSurfaced]
  | checkBin r =>
    simp only [step]
    by_cases hpd : s.checkBinaryPending = true
    · rw [if_pos hpd]
      cases r with
      | some e =>
        simp only [checkBinHandler]
        constructor
        · rw [sbin_headDone]
          dsimp only
          rw [obsNext_headDone]
          exact hh
        · rw [sbin_bpeSurfaced]
          dsimp only
          rw [obsNext_bpeSurfaced]
      | none =>
        simp only [checkBinHandler]
        rw [obsComplete_headDone, obsComplete_bpeSurfaced,
          obsNext_headDone, obsNext_bpeSurfaced]
        exact ⟨hh, rfl⟩
    · rw [if_neg hpd]; exact ⟨hh, rfl⟩
  | buildNext id' =>
    simp only [step]
    by_cases hg : (s.closed || !s.buildActive || s.buildSettled) = true
    · rw [if_pos hg]; exact ⟨hh, rfl⟩
    · rw [if_neg hg]
      simp only [buildNextHandler]
      split
      · exact ⟨hh, rfl⟩
      · rw [obsNext_headDone, obsNext_bpeSurfaced]
        exact ⟨hh, rfl⟩
  | buildError e =>
    simp only [step]
    by_cases hg : (s.closed || !s.buildActive || s.buildSettled) = true
    · rw [if_pos hg]; exact ⟨hh, rfl⟩
    · rw [if_neg hg]
      simp only [buildErrorHandler, sendError]
      rw [obsError_headDone, obsError_bpeSurfaced]
      exact ⟨hh, rfl⟩
  | renameDone r =>
    simp only [step]
    by_cases hp : s.renamePending = true
    · rw [if_pos hp]
      cases r with
      | some e =>
        simp only [renameHandler, sendError]
        rw [obsError_headDone, obsError_bpeSurfaced]
        exact ⟨hh, rfl⟩
      | none =>
        simp only [renameHandler]
        rw [obsComplete_headDone, obsComplete_bpeSurfaced,
          obsNext_headDone, obsNext_bpeSurfaced]
        exact ⟨hh, rfl⟩
    · rw [if_neg hp]; exact ⟨hh, rfl⟩
  | cancel =>
    simp only [step]
    by_cases hc : s.closed = true
    · rw [if_pos hc]; exact ⟨hh, rfl⟩
    · rw [if_neg hc]; exact ⟨hh, rfl⟩

/-- Fold version: after the head milestone, no suffix of the run ever
surfaces the preparation error. -/
theorem foldl_headDone_bpeSurfaced (req : Request) (l : List Input) :
    ∀ s : St, s.headDone = true →
      (l.foldl (step req) s).headDone = true ∧
        (l.foldl (step req) s).bpeSurfaced = s.bpeSurfaced := by
  induction l with
  | nil => intro s hh; exact ⟨hh, rfl⟩
  | cons i l ih =>
    intro s hh
    obtain ⟨h1, h2⟩ := step_headDone_bpeSurfaced req s i hh
    obtain ⟨g1, g2⟩ := ih (step req s i) h1
    exact ⟨g1, g2.trans h2⟩

/-- A preparation failure delivered after the head milestone only
records the error: the visible state is unchanged. -/
theorem step_prep_after_head (req : Request) (s : St) (e : Err)
    (hh : s.headDone = true) (hp : s.prepSettled = false) :
    step req s (.prep (some e))
      = { s with prepSettled := true, binaryPathError := some e } := by
  simp only [step]
  rw [if_neg (by simp [hp])]
  rw [prepHandler_some]
  split
  · rfl
  · rw [completeHead_of_headDone _ (show ({ s with
      prepSettled := true,
      binaryPathError := some e } : St).headDone = true from hh)]

theorem obsNext_closed (s : St) (p : Progress) : (obsNext s p).closed = s.closed := by
  unfold obsNext; split <;> rfl

theorem obsNext_term (s : St) (p : Progress) : (obsNext s p).term = s.term := by
  unfold obsNext; split <;> rfl

theorem obsNext_out_live (s : St) (p : Progress) (hcl : s.closed = false) :
    (obsNext s p).out = s.out ++ [p] := by
  unfold obsNext
  rw [if_neg (by simp [hcl])]

theorem obsComplete_out (s : St) : (obsComplete s).out = s.out := by
  unfold obsComplete; split <;> rfl

theorem obsComplete_term_live (s : St) (hcl : s.closed = false) :
    (obsComplete s).term = some Terminal.complete := by
  unfold obsComplete
  rw [if_neg (by simp [hcl])]

theorem obsError_term_live (s : St) (e : Err) (hcl : s.closed = false) :
    (obsError s e).term = some (Terminal.error e) := by
  unfold obsError
  rw [if_neg (by simp [hcl])]

/-- Behaviour of completeHead on a live, not yet completed head with a
recorded preparation error: head:complete is emitted and the error is
surfaced tagged download-binary. -/
theorem completeHead_fresh (s : St) (e : Err) (hh : s.headDone = false)
    (hcl : s.closed = false) (hb : s.binaryPathError = some e) :
    completeHead s = { s with
      headDone := true
      out := s.out ++ [⟨"head:complete", none⟩]
      bpeSurfaced := true
      term := some (Terminal.error ⟨e.code, "download-binary"⟩) } := by
  unfold completeHead
  rw [closed_eq] at hcl
  simp only [hh, Bool.false_eq_true, if_false, obsNext, closed_eq, hcl, hb,
    sendError, obsError]

/-- One prep-failure step before the head milestone: the head:complete
event is emitted and the preparation error terminates the stream tagged
download-binary (source lines 245-254 via 256-272). -/
theorem step_prep_before_head (req : Request) (s : St) (e : Err)
    (hp : s.prepSettled = false) (hh : s.headDone = false) (hcl : s.closed = false) :
    step req s (.prep (some e))
      = { s with
          prepSettled := true
          binaryPathError := some e
          headDone := true
          out := s.out ++ [⟨"head:complete", none⟩]
          bpeSurfaced := true
          term := some (Terminal.error ⟨e.code, "download-binary"⟩) } := by
  simp only [step]
  rw [if_neg (by simp [hp])]
  rw [closed_eq] at hcl
  simp only [prepHandler, completeHead, obsNext, sendError, obsError, closed_eq, hcl,
    hh, Bool.false_eq_true, if_false]

theorem obsNext_swapped (s : St) (p : Progress) :
    (obsNext s p).dlErrHandlerSwapped = s.dlErrHandlerSwapped := by
  unfold obsNext; split <;> rfl

theorem obsComplete_swapped (s : St) :
    (obsComplete s).dlErrHandlerSwapped = s.dlErrHandlerSwapped := by
  unfold obsComplete; split <;> rfl

theorem obsError_swapped (s : St) (e : Err) :
    (obsError s e).dlErrHandlerSwapped = s.dlErrHandlerSwapped := by
  unfold obsError; split <;> rfl

theorem obsNext_dlSettled (s : St) (p : Progress) :
    (obsNext s p).dlSettled = s.dlSettled := by
  unfold obsNext; split <;> rfl

theorem obsComplete_dlSettled (s : St) :
    (obsComplete s).dlSettled = s.dlSettled := by
  unfold obsComplete; split <;> rfl

theorem obsError_dlSettled (s : St) (e : Err) :
    (obsError s e).dlSettled = s.dlSettled := by
  unfold obsError; split <;> rfl

theorem obsNext_binaryPathError (s : St) (p : Progress) :
    (obsNext s p).binaryPathError = s.binaryPathError := by
  unfold obsNext; split <;> rfl

/-- observer.error leaves the observable closed: either it already was,
or the terminal error just closed it. -/
theorem obsError_closed_end (s : St) (e : Err) : (obsError s e).closed = true := by
  unfold obsError
  split
  · rename_i h
    exact h
  · rw [closed_eq]
    simp

/-- observer.complete leaves the observable closed. -/
theorem obsComplete_closed_end (s : St) : (obsComplete s).closed = true := by
  unfold obsComplete
  split
  · rename_i h
    exact h
  · rw [closed_eq]
    simp

theorem sbin_swapped (s : St) :
    (startBuildIfNeeded s).dlErrHandlerSwapped = s.dlErrHandlerSwapped := by
  rcases startBuildIfNeeded_cases s with ⟨_, h⟩ | ⟨_, _, h⟩ | ⟨_, _, ⟨e, _, h⟩ | ⟨_, h⟩⟩ <;>
    rw [h]

theorem sbin_dlSettled (s : St) :
    (startBuildIfNeeded s).dlSettled = s.dlSettled := by
  rcases startBuildIfNeeded_cases s with ⟨_, h⟩ | ⟨_, _, h⟩ | ⟨_, _, ⟨e, _, h⟩ | ⟨_, h⟩⟩ <;>
    rw [h]

/-- startBuildIfNeeded never reopens a closed observable, so a live
result means a live argument. -/
theorem sbin_closed_mono (s : St) (h : (startBuildIfNeeded s).closed = false) :
    s.closed = false := by
  rcases startBuildIfNeeded_cases s with ⟨_, he⟩ | ⟨hc, _, he⟩ | ⟨hc, _, ⟨e, _, he⟩ | ⟨_, he⟩⟩
  · rw [he] at h
    exact h
  · exact hc
  · exact hc
  · exact hc

/-- completeHead always leaves the head milestone done. -/
theorem completeHead_headDone_end (s : St) : (completeHead s).headDone = true := by
  by_cases hh : s.headDone = true
  · rw [completeHead_of_headDone s hh]
    exact hh
  · rw [Bool.not_eq_true] at hh
    unfold completeHead
    simp only [hh, Bool.false_eq_true, if_false]
    cases hbp : (obsNext { s with headDone := true }
        ⟨"head:complete", none⟩).binaryPathError with
    | some e =>
      simp only [sendError]
      rw [obsError_headDone]
      dsimp only
      rw [obsNext_headDone]
    | none =>
      dsimp only
      rw [obsNext_headDone]

theorem completeHead_dlSettled (s : St) : (completeHead s).dlSettled = s.dlSettled := by
  by_cases hh : s.headDone = true
  · rw [completeHead_of_headDone s hh]
  · rw [Bool.not_eq_true] at hh
    unfold completeHead
    simp only [hh, Bool.false_eq_true, if_false]
    cases hbp : (obsNext { s with headDone := true }
        ⟨"head:complete", none⟩).binaryPathError with
    | some e =>
      simp only [sendError]
      rw [obsError_dlSettled]
      dsimp only
      rw [obsNext_dlSettled]
    | none =>
      dsimp only
      rw [obsNext_dlSettled]

/-- completeHead never clears an already swapped download error
handler. -/
theorem completeHead_swapped_mono (s : St) (h : s.dlErrHandlerSwapped = true) :
    (completeHead s).dlErrHandlerSwapped = true := by
  by_cases hh : s.headDone = true
  · rw [completeHead_of_headDone s hh]
    exact h
  · rw [Bool.not_eq_true] at hh
    unfold completeHead
    simp only [hh, Bool.false_eq_true, if_false]
    cases hbp : (obsNext { s with headDone := true }
        ⟨"head:complete", none⟩).binaryPathError with
    | some e =>
      simp only [sendError]
      rw [obsError_swapped]
      dsimp only
      rw [obsNext_swapped]
      exact h
    | none =>
      rfl

/-- With a recorded preparation error, completeHead surfaces it and
never swaps the handler. -/
theorem completeHead_bpe_swapped (s : St) (e : Err) (hb : s.binaryPathError = some e) :
    (completeHead s).dlErrHandlerSwapped = s.dlErrHandlerSwapped := by
  by_cases hh : s.headDone = true
  · rw [completeHead_of_headDone s hh]
  · rw [Bool.not_eq_true] at hh
    unfold completeHead
    simp only [hh, Bool.false_eq_true, if_false]
    cases hbp : (obsNext { s with headDone := true }
        ⟨"head:complete", none⟩).binaryPathError with
    | some e2 =>
      simp only [sendError]
      rw [obsError_swapped]
      dsimp only
      rw [obsNext_swapped]
    | none =>
      have hx : s.binaryPathError = none :=
        (obsNext_binaryPathError { s with headDone := true }
          ⟨"head:complete", none⟩).symm.trans hbp
      rw [hb] at hx
      exact absurd hx (by simp)

/-- completeHead preserves the head-done/live/swapped implication: when
the head milestone first completes, it either swaps the handler or
terminates the stream. -/
theorem completeHead_hs (s : St)
    (hhs : s.headDone = true → s.closed = false → s.dlErrHandlerSwapped = true) :
    (completeHead s).headDone = true → (completeHead s).closed = false →
      (completeHead s).dlErrHandlerSwapped = true := by
  by_cases hh : s.headDone = true
  · rw [completeHead_of_headDone s hh]
    exact hhs
  · rw [Bool.not_eq_true] at hh
    unfold completeHead
    simp only [hh, Bool.false_eq_true, if_false]
    cases hbp : (obsNext { s with headDone := true }
        ⟨"head:complete", none⟩).binaryPathError with
    | some e =>
      intro h4a h4b
      simp only [sendError] at h4b
      rw [obsError_closed_end] at h4b
      exact absurd h4b (by decide)
    | none =>
      intro h4a h4b
      rfl

/-- The download filter callback always completes the head milestone. -/
theorem dlFilterHandler_headDone (req : Request) (s : St) (q : String) :
    (dlFilterHandler req s q).headDone = true := by
  unfold dlFilterHandler
  dsimp only
  split
  · dsimp only
    exact completeHead_headDone_end s
  · exact completeHead_headDone_end s

theorem dlFilterHandler_dlSettled (req : Request) (s : St) (q : String) :
    (dlFilterHandler req s q).dlSettled = s.dlSettled := by
  unfold dlFilterHandler
  dsimp only
  split
  · dsimp only
    exact completeHead_dlSettled s
  · exact completeHead_dlSettled s

theorem dlFilterHandler_swapped_mono (req : Request) (s : St) (q : String)
    (h : s.dlErrHandlerSwapped = true) :
    (dlFilterHandler req s q).dlErrHandlerSwapped = true := by
  unfold dlFilterHandler
  dsimp only
  split
  · dsimp only
    exact completeHead_swapped_mono s h
  · exact completeHead_swapped_mono s h

theorem dlFilterHandler_hs (req : Request) (s : St) (q : String)
    (hhs : s.headDone = true → s.closed = false → s.dlErrHandlerSwapped = true) :
    (dlFilterHandler req s q).headDone = true → (dlFilterHandler req s q).closed = false →
      (dlFilterHandler req s q).dlErrHandlerSwapped = true := by
  unfold dlFilterHandler
  dsimp only
  split
  · intro h4a h4b
    exact completeHead_hs s hhs h4a h4b
  · exact completeHead_hs s hhs

/-- No step reopens a closed observable. -/
theorem step_closed_mono (req : Request) (s : St) (i : Input)
    (h : (step req s i).closed = false) : s.closed = false := by
  by_cases hc : s.closed = true
  · rw [(step_frozen req s i hc).2.2] at h
    exact absurd h (by decide)
  · rw [Bool.not_eq_true] at hc
    exact hc

/-- One step preserves the download bookkeeping the failure-tag timing
argument needs: a settled download and a swapped error handler stay so,
the swap happens only at a dlFilter input (the filter inspecting an
archive entry), and a live state whose head milestone is done has the
swapped handler installed. -/
theorem step_swap_state (req : Request) (s : St) (i : Input)
    (hhs : s.headDone = true → s.closed = false → s.dlErrHandlerSwapped = true) :
    (s.dlSettled = true → (step req s i).dlSettled = true) ∧
      (s.dlErrHandlerSwapped = true → (step req s i).dlErrHandlerSwapped = true) ∧
      ((∀ q, i ≠ Input.dlFilter q) →
        (step req s i).dlErrHandlerSwapped = s.dlErrHandlerSwapped) ∧
      ((step req s i).headDone = true → (step req s i).closed = false →
        (step req s i).dlErrHandlerSwapped = true) := by
  cases i with
  | prep r =>
    simp only [step]
    by_cases hp : s.prepSettled = true
    · rw [if_pos hp]
      exact ⟨fun h => h, fun h => h, fun _ => rfl, hhs⟩
    · rw [if_neg hp]
      cases r with
      | none => exact ⟨fun h => h, fun h => h, fun _ => rfl, hhs⟩
      | some e =>
        rw [prepHandler_some]
        split
        · exact ⟨fun h => h, fun h => h, fun _ => rfl, hhs⟩
        · refine ⟨?_, ?_, ?_, ?_⟩
          · intro h
            exact (completeHead_dlSettled _).trans h
          · intro h
            exact completeHead_swapped_mono _ h
          · intro h3
            exact completeHead_bpe_swapped _ e rfl
          · exact completeHead_hs _ hhs
  | dlFilter q0 =>
    simp only [step]
    by_cases hg : (s.closed || s.dlSettled) = true
    · rw [if_pos hg]
      exact ⟨fun h => h, fun h => h, fun _ => rfl, hhs⟩
    · rw [if_neg hg]
      refine ⟨?_, ?_, ?_, ?_⟩
      · intro h
        exact (dlFilterHandler_dlSettled req s q0).trans h
      · intro h
        exact dlFilterHandler_swapped_mono req s q0 h
      · intro h3
        exact absurd rfl (h3 q0)
      · exact dlFilterHandler_hs req s q0 hhs
  | dlNext =>
    simp only [step]
    by_cases hg : (s.closed || s.dlSettled) = true
    · rw [if_pos hg]
      exact ⟨fun h => h, fun h => h, fun _ => rfl, hhs⟩
    · rw [if_neg hg]
      refine ⟨?_, ?_, ?_, ?_⟩
      · intro h
        rw [obsNext_dlSettled]
        exact h
      · intro h
        rw [obsNext_swapped]
        exact h
      · intro h3
        rw [obsNext_swapped]
      · intro h4a h4b
        rw [obsNext_headDone] at h4a
        rw [obsNext_closed] at h4b
        rw [obsNext_swapped]
        exact hhs h4a h4b
  | dlError e =>
    simp only [step]
    by_cases hg : (s.closed || s.dlSettled) = true
    · rw [if_pos hg]
      exact ⟨fun h => h, fun h => h, fun _ => rfl, hhs⟩
    · rw [if_neg hg]
      simp only [dlErrorHandler]
      split
      · rename_i hsw
        simp only [handleBinaryDownloadError]
        split
        · refine ⟨?_, ?_, ?_, ?_⟩
          · intro h
            exact absurd (show (s.closed || s.dlSettled) = true from by rw [h]; simp) hg
          · intro h
            rw [obsError_swapped]
            exact h
          · intro h3
            rw [obsError_swapped]
          · intro h4a h4b
            rw [obsError_closed_end] at h4b
            exact absurd h4b (by decide)
        · refine ⟨?_, ?_, ?_, ?_⟩
          · intro h
            exact absurd (show (s.closed || s.dlSettled) = true from by rw [h]; simp) hg
          · intro h
            simp only [sbin_swapped, obsNext_swapped]
            exact h
          · intro h3
            simp only [sbin_swapped, obsNext_swapped]
          · intro h4a h4b
            simp only [sbin_swapped, obsNext_swapped]
            exact hsw
      · split
        · refine ⟨?_, ?_, ?_, ?_⟩
          · intro h
            exact absurd (show (s.closed || s.dlSettled) = true from by rw [h]; simp) hg
          · intro h
            simp only [sbin_swapped, obsNext_swapped]
            exact h
          · intro h3
            simp only [sbin_swapped, obsNext_swapped]
          · intro h4a h4b
            have h4d : s.closed = false := by
              have h4c := sbin_closed_mono _ h4b
              rw [closed_eq] at h4c
              simp only [obsNext_term, obsNext_cancelled] at h4c
              rw [closed_eq]
              exact h4c
            simp only [sbin_headDone, obsNext_headDone] at h4a
            simp only [sbin_swapped, obsNext_swapped]
            exact hhs h4a h4d
        · refine ⟨?_, ?_, ?_, ?_⟩
          · intro h
            exact absurd (show (s.closed || s.dlSettled) = true from by rw [h]; simp) hg
          · intro h
            simp only [sendError, obsError_swapped]
            exact h
          · intro h3
            simp only [sendError, obsError_swapped]
          · intro h4a h4b
            simp only [sendError] at h4b
            rw [obsError_closed_end] at h4b
            exact absurd h4b (by decide)
  | dlComplete =>
    simp only [step]
    by_cases hg : (s.closed || s.dlSettled) = true
    · rw [if_pos hg]
      exact ⟨fun h => h, fun h => h, fun _ => rfl, hhs⟩
    · rw [if_neg hg]
      simp only [dlCompleteHandler]
      split
      · refine ⟨?_, ?_, ?_, ?_⟩
        · intro h
          exact absurd (show (s.closed || s.dlSettled) = true from by rw [h]; simp) hg
        · intro h
          simp only [obsComplete_swapped, obsNext_swapped]
          exact h
        · intro h3
          simp only [obsComplete_swapped, obsNext_swapped]
        · intro h4a h4b
          rw [obsComplete_closed_end] at h4b
          exact absurd h4b (by decide)
      · refine ⟨?_, ?_, ?_, ?_⟩
        · intro h
          exact absurd (show (s.closed || s.dlSettled) = true from by rw [h]; simp) hg
        · intro h
          simp only [obsNext_swapped]
          exact h
        · intro h3
          simp only [obsNext_swapped]
        · intro h4a h4b
          have h4d : s.closed = false := by
            rw [closed_eq] at h4b
            simp only [obsNext_term, obsNext_cancelled] at h4b
            rw [closed_eq]
            exact h4b
          simp only [obsNext_headDone] at h4a
          simp only [obsNext_swapped]
          exact hhs h4a h4d
  | stack r =>
    simp only [step]
    by_cases hsd : s.stackDone = true
    · rw [if_pos hsd]
      exact ⟨fun h => h, fun h => h, fun _ => rfl, hhs⟩
    · rw [if_neg hsd]
      cases r with
      | ok v =>
        simp only [stackHandler]
        refine ⟨?_, ?_, ?_, ?_⟩
        · intro h
          rw [sbin_dlSettled]
          exact h
        · intro h
          rw [sbin_swapped]
          exact h
        · intro h3
          rw [sbin_swapped]
        · intro h4a h4b
          have h4c := sbin_closed_mono _ h4b
          have h4d : s.closed = false := h4c
          rw [sbin_headDone] at h4a
          rw [sbin_swapped]
          exact hhs h4a h4d
      | error e2 =>
        simp only [stackHandler]
        refine ⟨?_, ?_, ?_, ?_⟩
        · intro h
          simp only [sbin_dlSettled]
          exact h
        · intro h
          simp only [sbin_swapped]
          exact h
        · intro h3
          simp only [sbin_swapped]
        · intro h4a h4b
          have h4c := sbin_closed_mono _ h4b
          have h4d : s.closed = false := h4c
          simp only [sbin_headDone] at h4a
          simp only [sbin_swapped]
          exact hhs h4a h4d
  | checkBin r =>
    simp only [step]
    by_cases hpd : s.checkBinaryPending = true
    · rw [if_pos hpd]
      cases r with
      | some e2 =>
        simp only [checkBinHandler]
        refine ⟨?_, ?_, ?_, ?_⟩
        · intro h
          simp only [sbin_dlSettled, obsNext_dlSettled]
          exact h
        · intro h
          simp only [sbin_swapped, obsNext_swapped]
          exact h
        · intro h3
          simp only [sbin_swapped, obsNext_swapped]
        · intro h4a h4b
          have h4d : s.closed = false := by
            have h4c := sbin_closed_mono _ h4b
            rw [closed_eq] at h4c
            simp only [obsNext_term, obsNext_cancelled] at h4c
            rw [closed_eq]
            exact h4c
          simp only [sbin_headDone, obsNext_headDone] at h4a
          simp only [sbin_swapped, obsNext_swapped]
          exact hhs h4a h4d
      | none =>
        simp only [checkBinHandler]
        refine ⟨?_, ?_, ?_, ?_⟩
        · intro h
          simp only [obsComplete_dlSettled, obsNext_dlSettled]
          exact h
        · intro h
          simp only [obsComplete_swapped, obsNext_swapped]
          exact h
        · intro h3
          simp only [obsComplete_swapped, obsNext_swapped]
        · intro h4a h4b
          rw [obsComplete_closed_end] at h4b
          exact absurd h4b (by decide)
    · rw [if_neg hpd]
      exact ⟨fun h => h, fun h => h, fun _ => rfl, hhs⟩
  | buildNext id2 =>
    simp only [step]
    by_cases hg : (s.closed || !s.buildActive || s.buildSettled) = true
    · rw [if_pos hg]
      exact ⟨fun h => h, fun h => h, fun _ => rfl, hhs⟩
    · rw [if_neg hg]
      simp only [buildNextHandler]
      split
      · exact ⟨fun h => h, fun h => h, fun _ => rfl, hhs⟩
      · refine ⟨?_, ?_, ?_, ?_⟩
        · intro h
          rw [obsNext_dlSettled]
          exact h
        · intro h
          rw [obsNext_swapped]
          exact h
        · intro h3
          rw [obsNext_swapped]
        · intro h4a h4b
          rw [obsNext_headDone] at h4a
          rw [obsNext_closed] at h4b
          rw [obsNext_swapped]
          exact hhs h4a h4b
  | buildError e2 =>
    simp only [step]
    by_cases hg : (s.closed || !s.buildActive || s.buildSettled) = true
    · rw [if_pos hg]
      exact ⟨fun h => h, fun h => h, fun _ => rfl, hhs⟩
    · rw [if_neg hg]
      simp only [buildErrorHandler, sendError]
      refine ⟨?_, ?_, ?_, ?_⟩
      · intro h
        rw [obsError_dlSettled]
        exact h
      · intro h
        rw [obsError_swapped]
        exact h
      · intro h3
        rw [obsError_swapped]
      · intro h4a h4b
        rw [obsError_closed_end] at h4b
        exact absurd h4b (by decide)
  | renameDone r =>
    simp only [step]
    by_cases hp2 : s.renamePending = true
    · rw [if_pos hp2]
      cases r with
      | some e2 =>
        simp only [renameHandler, sendError]
        refine ⟨?_, ?_, ?_, ?_⟩
        · intro h
          rw [obsError_dlSettled]
          exact h
        · intro h
          rw [obsError_swapped]
          exact h
        · intro h3
          rw [obsError_swapped]
        · intro h4a h4b
          rw [obsError_closed_end] at h4b
          exact absurd h4b (by decide)
      | none =>
        simp only [renameHandler]
        refine ⟨?_, ?_, ?_, ?_⟩
        · intro h
          simp only [obsComplete_dlSettled, obsNext_dlSettled]
          exact h
        · intro h
          simp only [obsComplete_swapped, obsNext_swapped]
          exact h
        · intro h3
          simp only [obsComplete_swapped, obsNext_swapped]
        · intro h4a h4b
          rw [obsComplete_closed_end] at h4b
          exact absurd h4b (by decide)
    · rw [if_neg hp2]
      exact ⟨fun h => h, fun h => h, fun _ => rfl, hhs⟩
  | cancel =>
    simp only [step]
    by_cases hc : s.closed = true
    · rw [if_pos hc]
      exact ⟨fun h => h, fun h => h, fun _ => rfl, hhs⟩
    · rw [if_neg hc]
      refine ⟨fun h => h, fun h => h, fun _ => rfl, ?_⟩
      intro h4a h4b
      rw [closed_eq] at h4b
      simp at h4b

/-- Fold version of step_swap_state over a whole schedule suffix. -/
theorem foldl_swap_state (req : Request) (l : List Input) :
    ∀ s : St, (s.headDone = true → s.closed = false → s.dlErrHandlerSwapped = true) →
      ((l.foldl (step req) s).headDone = true → (l.foldl (step req) s).closed = false →
        (l.foldl (step req) s).dlErrHandlerSwapped = true) ∧
      (s.dlSettled = true → (l.foldl (step req) s).dlSettled = true) ∧
      (s.dlErrHandlerSwapped = true → (l.foldl (step req) s).dlErrHandlerSwapped = true) ∧
      ((∀ q, Input.dlFilter q ∉ l) →
        (l.foldl (step req) s).dlErrHandlerSwapped = s.dlErrHandlerSwapped) := by
  induction l with
  | nil => intro s hhs; exact ⟨hhs, fun h => h, fun h => h, fun _ => rfl⟩
  | cons i l ih =>
    intro s hhs
    obtain ⟨sds, ssm, ssf, shs⟩ := step_swap_state req s i hhs
    obtain ⟨fhs, fds, fsm, ffr⟩ := ih (step req s i) shs
    refine ⟨fhs, fun h => fds (sds h), fun h => fsm (ssm h), ?_⟩
    intro hq
    have h1 : ∀ q, i ≠ Input.dlFilter q := by
      intro q heq
      exact hq q (by rw [← heq]; exact List.mem_cons_self i l)
    have h2 : ∀ q, Input.dlFilter q ∉ l := by
      intro q hmem
      exact hq q (List.mem_cons_of_mem i hmem)
    exact (ffr h2).trans (ssf h1)

theorem startState_headDone (req : Request) : (startState req).headDone = false := by
  unfold startState
  cases validate req <;> rfl

theorem startState_swapped (req : Request) :
    (startState req).dlErrHandlerSwapped = false := by
  unfold startState
  cases validate req <;> rfl

/-- The subscriber body starts with the head milestone pending, so the
head-done/live/swapped implication holds vacuously at the start. -/
theorem startState_hs (req : Request) :
    (startState req).headDone = true → (startState req).closed = false →
      (startState req).dlErrHandlerSwapped = true := by
  intro hh _
  rw [startState_headDone] at hh
  exact absurd hh (by decide)

/-- A live run whose head milestone is done has swapped the download
error handler (source line 253). -/
theorem run_hs (req : Request) (l : List Input) :
    (run req l).headDone = true → (run req l).closed = false →
      (run req l).dlErrHandlerSwapped = true :=
  (foldl_swap_state req l (startState req) (startState_hs req)).1

/-- After the filter inspected an archive entry of a download that is
still live and unsettled at the end of the run, the download error
handler is swapped: a later download failure is handled by
handleBinaryDownloadError, not by the initial head-tagging handler. -/
theorem run_dlFilter_swapped (req : Request) (l1 l2 : List Input) (q : String)
    (hcl : (run req (l1 ++ Input.dlFilter q :: l2)).closed = false)
    (hds : (run req (l1 ++ Input.dlFilter q :: l2)).dlSettled = false) :
    (run req (l1 ++ Input.dlFilter q :: l2)).dlErrHandlerSwapped = true := by
  have hsplit : run req (l1 ++ Input.dlFilter q :: l2)
      = l2.foldl (step req) (step req (run req l1) (Input.dlFilter q)) := by
    rw [show l1 ++ Input.dlFilter q :: l2 = (l1 ++ [Input.dlFilter q]) ++ l2 from by simp,
      run_append, run_append]
    rfl
  have hhs0 := run_hs req l1
  obtain ⟨sds, ssm, ssf, shs⟩ := step_swap_state req (run req l1) (Input.dlFilter q) hhs0
  have hfin := foldl_swap_state req l2 (step req (run req l1) (Input.dlFilter q)) shs
  rw [hsplit] at hcl hds ⊢
  have hcl1 : (step req (run req l1) (Input.dlFilter q)).closed = false := by
    by_cases hx : (step req (run req l1) (Input.dlFilter q)).closed = true
    · rw [(foldl_frozen req l2 _ hx).2.2] at hcl
      exact absurd hcl (by decide)
    · rw [Bool.not_eq_true] at hx
      exact hx
  have hds1 : (step req (run req l1) (Input.dlFilter q)).dlSettled = false := by
    by_cases hx : (step req (run req l1) (Input.dlFilter q)).dlSettled = true
    · rw [hfin.2.1 hx] at hds
      exact absurd hds (by decide)
    · rw [Bool.not_eq_true] at hx
      exact hx
  have hcl0 : (run req l1).closed = false := step_closed_mono req _ _ hcl1
  have hds0 : (run req l1).dlSettled = false := by
    by_cases hx : (run req l1).dlSettled = true
    · rw [sds hx] at hds1
      exact absurd hds1 (by decide)
    · rw [Bool.not_eq_true] at hx
      exact hx
  have hstep1 : step req (run req l1) (Input.dlFilter q)
      = dlFilterHandler req (run req l1) q := by
    simp only [step]
    rw [if_neg (by simp [hcl0, hds0])]
  have hh1 : (step req (run req l1) (Input.dlFilter q)).headDone = true := by
    rw [hstep1]
    exact dlFilterHandler_headDone req _ q
  exact hfin.2.2.1 (shs hh1 hcl1)

/-- The two download failure tags, decided by whether the error handler
was swapped (source lines 200-214 before the swap, 179-193 after): head
before the first inspected entry, download-binary after. -/
theorem dlError_tag (req : Request) (s : St) (e : Err)
    (hf : isDifferentPlatform req = true)
    (hcl : s.closed = false) (hds : s.dlSettled = false) :
    (s.dlErrHandlerSwapped = false →
      (step req s (.dlError e)).term = some (Terminal.error ⟨e.code, "head"⟩)) ∧
    (s.dlErrHandlerSwapped = true →
      (step req s (.dlError e)).term
        = some (Terminal.error ⟨e.code, "download-binary"⟩)) := by
  simp only [step]
  rw [if_neg (by simp [hcl, hds])]
  simp only [dlErrorHandler]
  constructor
  · intro hsw
    rw [if_neg (show ¬(({ s with dlSettled := true } : St).dlErrHandlerSwapped = true)
      from by
        intro hx
        have hx2 : s.dlErrHandlerSwapped = true := hx
        rw [hx2] at hsw
        exact absurd hsw (by decide))]
    rw [if_neg (show ¬(e.code = "ERR_UNSUPPORTED_PLATFORM" ∧ isDifferentPlatform req = false)
      from by
        rintro ⟨-, h2⟩
        rw [hf] at h2
        exact absurd h2 (by decide))]
    simp only [sendError]
    rw [obsError_term_live _ _
      (show ({ s with dlSettled := true } : St).closed = false from hcl)]
  · intro hsw
    rw [if_pos (show ({ s with dlSettled := true } : St).dlErrHandlerSwapped = true
      from hsw)]
    simp only [handleBinaryDownloadError]
    rw [if_pos hf]
    rw [obsError_term_live _ _
      (show ({ s with dlSettled := true } : St).closed = false from hcl)]

/-- Concrete native-platform request used by the witnesses. -/
def reqNative : Request := { dir := "d", nativePlatform := "linux" }

/-- Concrete explicit-foreign-platform request. -/
def reqForeign : Request :=
  { dir := "d", platform := some "win32", nativePlatform := "linux" }

/-- Request whose rename function returns a name with a path separator. -/
def reqSep : Request :=
  { dir := "d", rename := some fun _ => RenameVal.str "bin/purs", nativePlatform := "linux" }

/-- Request whose rename function returns a non-string. -/
def reqBadRename : Request :=
  { dir := "d", rename := some fun _ => RenameVal.nonString, nativePlatform := "linux" }

/-- A successful-download schedule: the filter accepts the purs entry,
the download completes, the binary check succeeds. -/
def dlOkSchedule : List Input :=
  [Input.dlFilter "purescript/purs", Input.dlComplete, Input.checkBin none]

/-- The unsupported-platform fallback trigger on a native request. -/
def unsupSchedule : List Input := [Input.dlError ⟨"ERR_UNSUPPORTED_PLATFORM", ""⟩]

/-- Whether validation rejects the rename function result (the checks
the source actually performs: non-string or empty string). -/
def renameRejectedB (req : Request) : Bool :=
  match req.rename with
  | none => false
  | some f =>
    match f (getPlatformBinName (targetPlatform req)) with
    | .nonString => true
    | .str s => decide (s = "")

/-- C1: every run of a valid request over a well-formed schedule that
terminates successfully has installed the binary at
destination/binNameOf, the rename function (when given) applied to the
platform default name — on the download branch and the build branch
alike. -/
theorem successful_run_installs_final_path (req : Request) (l : List Input)
    (hv : validate req = none) (hw : Wf l)
    (hc : (run req l).term = some Terminal.complete) :
    (run req l).installedPath = some (pathJoin req.dir (binNameOf req)) :=
  (run_inv req l hv hw).completeIp hc

/-- C1 witness: the download-success schedule installs d/purs. -/
theorem successful_run_installs_final_path_witness :
    validate reqNative = none ∧ Wf dlOkSchedule ∧
      (run reqNative dlOkSchedule).term = some Terminal.complete ∧
      (run reqNative dlOkSchedule).installedPath = some "d/purs" :=
  ⟨by decide, by decide, by decide,
    (successful_run_installs_final_path reqNative dlOkSchedule (by decide) (by decide)
      (by decide)).trans (by decide)⟩

/-- C2 counterexample: on an explicit foreign platform a download
failure arriving before the first archive entry is inspected terminates
the stream with the error tagged head, not download-binary. -/
theorem foreign_early_failure_head_tag :
    isDifferentPlatform reqForeign = true ∧
      (run reqForeign [Input.dlError ⟨"ECONNRESET", ""⟩]).term
        = some (Terminal.error ⟨"ECONNRESET", "head"⟩) ∧
      ("head" : String) ≠ "download-binary" :=
  ⟨by decide, by decide, by decide⟩

/-- C2 amended: on an explicit foreign platform no build is ever
attempted (the decision barrier body never runs and the build
subscription is never created) and a terminal error is tagged head or
download-binary; the tag follows the arrival timing of the download
failure: while no archive entry has been inspected the initial handler
is still installed (dlErrHandlerSwapped is false) and a failure
terminates tagged head, and once the filter has inspected an entry of a
still-live, still-pending download the handler is swapped and a failure
terminates tagged download-binary. -/
theorem foreign_platform_failure_tags (req : Request) (l : List Input)
    (hv : validate req = none) (hw : Wf l)
    (hf : isDifferentPlatform req = true) :
    (run req l).buildFired = 0 ∧ (run req l).buildActive = false ∧
      (∀ e, (run req l).term = some (Terminal.error e) →
        e.id = "head" ∨ e.id = "download-binary") ∧
      ((∀ q, Input.dlFilter q ∉ l) → (run req l).dlErrHandlerSwapped = false) ∧
      (∀ (l1 l2 : List Input) (q : String), l = l1 ++ Input.dlFilter q :: l2 →
        (run req l).closed = false → (run req l).dlSettled = false →
        (run req l).dlErrHandlerSwapped = true) ∧
      (∀ e : Err, (run req l).closed = false → (run req l).dlSettled = false →
        ((run req l).dlErrHandlerSwapped = false →
          (step req (run req l) (.dlError e)).term
            = some (Terminal.error ⟨e.code, "head"⟩)) ∧
        ((run req l).dlErrHandlerSwapped = true →
          (step req (run req l) (.dlError e)).term
            = some (Terminal.error ⟨e.code, "download-binary"⟩))) := by
  have h := run_inv req l hv hw
  have hcount : (run req l).startBuildCount ≤ 1 := by
    have hc2 := h.countLe
    rw [h.forTrig hf] at hc2
    simp only [Bool.false_eq_true, if_false] at hc2
    split at hc2 <;> omega
  refine ⟨?_, ?_, h.forErr hf, ?_, ?_, ?_⟩
  · rw [h.firedEq]
    rw [if_neg (by omega)]
  · cases hba : (run req l).buildActive
    · rfl
    · exact absurd (h.activeCount hba) (by omega)
  · intro hq
    exact ((foldl_swap_state req l (startState req) (startState_hs req)).2.2.2 hq).trans
      (startState_swapped req)
  · intro l1 l2 q heq hcl hds
    subst heq
    exact run_dlFilter_swapped req l1 l2 q hcl hds
  · intro e hcl hds
    exact dlError_tag req (run req l) e hf hcl hds

/-- C2 amended witness: the foreign ECONNRESET failure attempts no
build, tags head when it arrives before any inspected entry and
download-binary when it arrives after one. -/
theorem foreign_platform_failure_tags_witness :
    validate reqForeign = none ∧ Wf [Input.dlFilter "x"] ∧
      isDifferentPlatform reqForeign = true ∧
      (run reqForeign [Input.dlFilter "x"]).buildFired = 0 ∧
      (run reqForeign [Input.dlFilter "x"]).buildActive = false ∧
      (run reqForeign ([] : List Input)).dlErrHandlerSwapped = false ∧
      (step reqForeign (run reqForeign ([] : List Input))
          (Input.dlError ⟨"ECONNRESET", ""⟩)).term
        = some (Terminal.error ⟨"ECONNRESET", "head"⟩) ∧
      (run reqForeign [Input.dlFilter "x"]).dlErrHandlerSwapped = true ∧
      (step reqForeign (run reqForeign [Input.dlFilter "x"])
          (Input.dlError ⟨"ECONNRESET", ""⟩)).term
        = some (Terminal.error ⟨"ECONNRESET", "download-binary"⟩) :=
  ⟨by decide, by decide, by decide,
    (foreign_platform_failure_tags reqForeign [Input.dlFilter "x"]
      (by decide) (by decide) (by decide)).1,
    (foreign_platform_failure_tags reqForeign [Input.dlFilter "x"]
      (by decide) (by decide) (by decide)).2.1,
    (foreign_platform_failure_tags reqForeign ([] : List Input)
      (by decide) (by decide) (by decide)).2.2.2.1 (fun q => List.not_mem_nil _),
    ((foreign_platform_failure_tags reqForeign ([] : List Input)
      (by decide) (by decide) (by decide)).2.2.2.2.2 ⟨"ECONNRESET", ""⟩
      (by decide) (by decide)).1 (by decide),
    (foreign_platform_failure_tags reqForeign [Input.dlFilter "x"]
      (by decide) (by decide) (by decide)).2.2.2.2.1 [] [] "x" rfl
      (by decide) (by decide),
    ((foreign_platform_failure_tags reqForeign [Input.dlFilter "x"]
      (by decide) (by decide) (by decide)).2.2.2.2.2 ⟨"ECONNRESET", ""⟩
      (by decide) (by decide)).2 (by decide)⟩

/-- C3: the decision-barrier body runs at most once per run; and
whenever a step makes it run, the toolchain probe had completed, the
fallback trigger (the head milestone resolving to build-needed, hence a
settled download) had arrived, and the consumer had not cancelled. -/
theorem decision_barrier_fires_once_after_both (req : Request) (l : List Input) (i : Input)
    (hv : validate req = none) (hw : Wf (l ++ [i])) :
    (run req (l ++ [i])).buildFired ≤ 1 ∧
      ((run req l).buildFired < (run req (l ++ [i])).buildFired →
        (run req (l ++ [i])).stackDone = true ∧
          (run req (l ++ [i])).fallbackTriggered = true ∧
          (run req (l ++ [i])).dlSettled = true ∧
          (run req l).cancelled = false) := by
  have hwl : Wf l := by
    unfold Wf at hw ⊢
    rw [wfInputs_append, Bool.and_eq_true] at hw
    exact hw.1
  have hinv := run_inv req l hv hwl
  have hinv2 := run_inv req (l ++ [i]) hv hw
  have hstep : run req (l ++ [i]) = step req (run req l) i := by
    rw [run_append]
    rfl
  constructor
  · rw [hinv2.firedEq]
    split <;> omega
  · intro hlt
    have hlt2 : (run req l).buildFired < (step req (run req l) i).buildFired := by
      rw [← hstep]
      exact hlt
    obtain ⟨h1, h2, h3, -, -⟩ := fired_step req _ (run req l) i hinv hlt2
    refine ⟨by rw [hstep]; exact h1, by rw [hstep]; exact h2, ?_, h3⟩
    exact hinv2.trigDl (by rw [hstep]; exact h2)

/-- C3 witness: after head:fail armed the fallback, the toolchain-probe
arrival makes the barrier fire exactly once. -/
theorem decision_barrier_fires_once_after_both_witness :
    validate reqNative = none ∧ Wf (unsupSchedule ++ [Input.stack (Except.ok "2.1")]) ∧
      (run reqNative unsupSchedule).buildFired <
        (run reqNative (unsupSchedule ++ [Input.stack (Except.ok "2.1")])).buildFired ∧
      (run reqNative (unsupSchedule ++ [Input.stack (Except.ok "2.1")])).stackDone = true :=
  ⟨by decide, by decide, by decide,
    ((decision_barrier_fires_once_after_both reqNative unsupSchedule
        (Input.stack (Except.ok "2.1")) (by decide) (by decide)).2 (by decide)).1⟩

/-- C4 counterexample: the unsupported-platform failure of a native
request arms the fallback and the build starts while no head:complete
event was ever emitted — the fallback decision is not preceded by
head:complete on this path. -/
theorem fallback_armed_without_head_complete :
    (run reqNative (unsupSchedule ++ [Input.stack (Except.ok "2.1")])).buildActive = true ∧
      hcEv ∉ (run reqNative (unsupSchedule ++ [Input.stack (Except.ok "2.1")])).out :=
  ⟨by decide, by decide⟩

/-- C4 amended: head:complete precedes the post-head fallback
downgrades: whenever a run's output contains a download-binary:fail or
check-binary:fail event, it also contains head:complete; the pre-head
unsupported-platform path (head:fail) arms the fallback without any
head:complete. -/
theorem fallback_fail_events_after_head_complete (req : Request) (l : List Input)
    (hv : validate req = none) (hw : Wf l)
    (hf : ∃ p ∈ (run req l).out,
      p.id = "download-binary:fail" ∨ p.id = "check-binary:fail") :
    hcEv ∈ (run req l).out :=
  (run_inv req l hv hw).failHc hf

/-- C4 amended witness: a swapped-handler download failure emits
download-binary:fail after head:complete. -/
theorem fallback_fail_events_after_head_complete_witness :
    validate reqNative = none ∧ Wf [Input.dlFilter "x", Input.dlError ⟨"EIO", ""⟩] ∧
      (∃ p ∈ (run reqNative [Input.dlFilter "x", Input.dlError ⟨"EIO", ""⟩]).out,
        p.id = "download-binary:fail" ∨ p.id = "check-binary:fail") ∧
      hcEv ∈ (run reqNative [Input.dlFilter "x", Input.dlError ⟨"EIO", ""⟩]).out :=
  ⟨by decide, by decide, by decide,
    fallback_fail_events_after_head_complete reqNative
      [Input.dlFilter "x", Input.dlError ⟨"EIO", ""⟩] (by decide) (by decide) (by decide)⟩

/-- C5: a toolchain-probe failure is surfaced exactly when a build is
needed: when a step makes the decision barrier fire, a recorded probe
failure terminates the stream tagged check-stack, and a successful
probe emits check-stack then check-stack:complete and starts the
builder; when the barrier never fired, no terminal error is tagged
check-stack. -/
theorem toolchain_failure_surfaced_iff_needed (req : Request)
    (hv : validate req = none) :
    (∀ (l : List Input) (i : Input), Wf (l ++ [i]) →
      (run req l).buildFired < (run req (l ++ [i])).buildFired →
      (∀ e, (run req (l ++ [i])).stackError = some e →
        (run req (l ++ [i])).term = some (Terminal.error ⟨e.code, "check-stack"⟩)) ∧
      ((run req (l ++ [i])).stackError = none →
        (∃ mid, (run req (l ++ [i])).out = (run req l).out ++ mid ++
          [⟨"check-stack", none⟩, ⟨"check-stack:complete", none⟩]) ∧
        (run req (l ++ [i])).buildActive = true)) ∧
    (∀ l : List Input, Wf l → (run req l).buildFired = 0 →
      ∀ e, (run req l).term = some (Terminal.error e) → e.id ≠ "check-stack") := by
  constructor
  · intro l i hw hlt
    have hwl : Wf l := by
      unfold Wf at hw ⊢
      rw [wfInputs_append, Bool.and_eq_true] at hw
      exact hw.1
    have hinv := run_inv req l hv hwl
    have hstep : run req (l ++ [i]) = step req (run req l) i := by
      rw [run_append]
      rfl
    rw [hstep] at hlt ⊢
    obtain ⟨-, -, -, h4, h5⟩ := fired_step req _ (run req l) i hinv hlt
    exact ⟨h4, h5⟩
  · intro l hw hf e hterm hcs
    have hinv := run_inv req l hv hw
    have h2 := hinv.csCount e hterm hcs
    have h3 := hinv.firedEq
    rw [hf, if_pos h2] at h3
    exact absurd h3 (by decide)

/-- C5 witness: a successful probe firing the barrier emits check-stack
and check-stack:complete and starts the builder. -/
theorem toolchain_failure_surfaced_iff_needed_witness :
    validate reqNative = none ∧ Wf (unsupSchedule ++ [Input.stack (Except.ok "2.1")]) ∧
      (run reqNative unsupSchedule).buildFired <
        (run reqNative (unsupSchedule ++ [Input.stack (Except.ok "2.1")])).buildFired ∧
      (run reqNative (unsupSchedule ++ [Input.stack (Except.ok "2.1")])).buildActive = true :=
  ⟨by decide, by decide, by decide,
    (((toolchain_failure_surfaced_iff_needed reqNative (by decide)).1 unsupSchedule
        (Input.stack (Except.ok "2.1")) (by decide) (by decide)).2 (by decide)).2⟩

/-- C6: on the builder's build:complete event the rename of the
builder's fixed output name to the caller-resolved final path is
started, with no event delivered yet; rename success forwards
build:complete, records the final path and terminates successfully;
rename failure terminates with the error tagged build. -/
theorem build_complete_triggers_rename (req : Request) :
    (∀ s : St, s.closed = false → s.buildActive = true → s.buildSettled = false →
      (step req s (.buildNext "build:complete")).renamePending = true ∧
      (step req s (.buildNext "build:complete")).renameArgs
        = some (pathJoin req.dir (getPlatformBinName req.nativePlatform),
            pathJoin req.dir (binNameOf req)) ∧
      (step req s (.buildNext "build:complete")).out = s.out ∧
      (step req s (.buildNext "build:complete")).term = s.term) ∧
    (∀ s : St, s.renamePending = true → s.closed = false →
      ((step req s (.renameDone none)).out = s.out ++ [⟨"build:complete", none⟩] ∧
        (step req s (.renameDone none)).term = some Terminal.complete ∧
        (step req s (.renameDone none)).installedPath
          = some (pathJoin req.dir (binNameOf req))) ∧
      ∀ e, (step req s (.renameDone (some e))).term
          = some (Terminal.error ⟨e.code, "build"⟩)) := by
  constructor
  · intro s hcl hact hbs
    simp only [step]
    rw [if_neg (by simp [hcl, hact, hbs])]
    simp only [buildNextHandler]
    rw [if_pos trivial]
    exact ⟨rfl, rfl, rfl, rfl⟩
  · intro s hrp hcl
    rw [closed_eq] at hcl
    constructor
    · refine ⟨?_, ?_, ?_⟩ <;>
        (simp only [step]
         rw [if_pos hrp]
         simp only [renameHandler, obsNext, obsComplete, closed_eq, hcl,
           Bool.false_eq_true, if_false])
    · intro e
      simp only [step]
      rw [if_pos hrp]
      simp only [renameHandler, sendError, obsError, closed_eq, hcl,
        Bool.false_eq_true, if_false]

/-- C6 witness: the rename machinery at concrete states. -/
theorem build_complete_triggers_rename_witness :
    (step reqNative { buildActive := true } (Input.buildNext "build:complete")).renamePending
        = true ∧
      (step reqNative { renamePending := true } (Input.renameDone none)).term
        = some Terminal.complete ∧
      (step reqNative { renamePending := true }
          (Input.renameDone (some ⟨"EPERM", ""⟩))).term
        = some (Terminal.error ⟨"EPERM", "build"⟩) :=
  ⟨((build_complete_triggers_rename reqNative).1 { buildActive := true }
      (by decide) (by decide) (by decide)).1,
    (((build_complete_triggers_rename reqNative).2 { renamePending := true }
      (by decide) (by decide)).1).2.1,
    ((build_complete_triggers_rename reqNative).2 { renamePending := true }
      (by decide) (by decide)).2 ⟨"EPERM", ""⟩⟩

/-- C7 counterexample: after the consumer unsubscribed, the
which/spawnStack toolchain-probe callback still runs and mutates the
closure state (it records its outcome); the probe is not released, its
effects are merely suppressed. -/
theorem toolchain_probe_not_released_after_cancel :
    (run reqNative [Input.cancel]).closed = true ∧
      (run reqNative [Input.cancel]).stackDone = false ∧
      (step reqNative (run reqNative [Input.cancel])
        (Input.stack (Except.error ⟨"ENOENT", ""⟩))).stackDone = true ∧
      (step reqNative (run reqNative [Input.cancel])
        (Input.stack (Except.error ⟨"ENOENT", ""⟩))).stackError = some ⟨"ENOENT", ""⟩ :=
  ⟨by decide, by decide, by decide, by decide⟩

/-- C7 amended: unsubscribing closes the observable: no later input of
any kind changes the delivered events or the outcome, and every
download- or builder-subscription delivery leaves the state entirely
unchanged; the toolchain-probe callback, however, is not released — it
still runs, its effects only being suppressed by the closed guards. -/
theorem cancel_silences_and_releases_subscriptions (req : Request) (l l2 : List Input) :
    ((run req (l ++ Input.cancel :: l2)).out = (run req (l ++ [Input.cancel])).out ∧
      (run req (l ++ Input.cancel :: l2)).term = (run req (l ++ [Input.cancel])).term) ∧
    (∀ p, step req (run req (l ++ [Input.cancel])) (Input.dlFilter p)
        = run req (l ++ [Input.cancel])) ∧
    step req (run req (l ++ [Input.cancel])) Input.dlNext
        = run req (l ++ [Input.cancel]) ∧
    (∀ e, step req (run req (l ++ [Input.cancel])) (Input.dlError e)
        = run req (l ++ [Input.cancel])) ∧
    step req (run req (l ++ [Input.cancel])) Input.dlComplete
        = run req (l ++ [Input.cancel]) ∧
    (∀ i2, step req (run req (l ++ [Input.cancel])) (Input.buildNext i2)
        = run req (l ++ [Input.cancel])) ∧
    (∀ e, step req (run req (l ++ [Input.cancel])) (Input.buildError e)
        = run req (l ++ [Input.cancel])) := by
  have hcl : (run req (l ++ [Input.cancel])).closed = true := by
    rw [run_append]
    show (step req (run req l) Input.cancel).closed = true
    simp only [step]
    by_cases hc : (run req l).closed = true
    · rw [if_pos hc]
      exact hc
    · rw [if_neg hc, closed_eq]
      simp
  refine ⟨?_, ?_, ?_, ?_, ?_, ?_, ?_⟩
  · have h0 : l ++ Input.cancel :: l2 = (l ++ [Input.cancel]) ++ l2 := by simp
    rw [h0, run_append]
    obtain ⟨h1, h2, -⟩ := foldl_frozen req l2 _ hcl
    exact ⟨h1, h2⟩
  · intro p
    simp only [step]
    rw [if_pos (by simp [hcl])]
  · simp only [step]
    rw [if_pos (by simp [hcl])]
  · intro e
    simp only [step]
    rw [if_pos (by simp [hcl])]
  · simp only [step]
    rw [if_pos (by simp [hcl])]
  · intro i2
    simp only [step]
    rw [if_pos (by simp [hcl])]
  · intro e
    simp only [step]
    rw [if_pos (by simp [hcl])]

/-- C8: for every valid request the head event is delivered
synchronously by the subscriber body, before any asynchronous input,
and stays the first delivered event of the whole run — even when the
consumer cancels immediately. -/
theorem head_emitted_first (req : Request) (l : List Input)
    (hv : validate req = none) (hw : Wf l) :
    (startState req).out = [⟨"head", none⟩] ∧
      ∃ r, (run req l).out = ⟨"head", none⟩ :: r := by
  constructor
  · unfold startState
    rw [hv]
  · exact (run_inv req l hv hw).headFirst

/-- C8 witness: head is first even under immediate cancellation. -/
theorem head_emitted_first_witness :
    validate reqNative = none ∧ Wf [Input.cancel] ∧
      (∃ r, (run reqNative [Input.cancel]).out = ⟨"head", none⟩ :: r) :=
  ⟨by decide, by decide,
    (head_emitted_first reqNative [Input.cancel] (by decide) (by decide)).2⟩

/-- C9 counterexample: a rename function returning a name containing a
path separator passes validation: no argument error, the head event is
emitted, and the separator-containing name becomes the resolved binary
name. -/
theorem separator_rename_not_rejected :
    validate reqSep = none ∧ (startState reqSep).out = [⟨"head", none⟩] ∧
      (startState reqSep).term = none ∧ binNameOf reqSep = "bin/purs" :=
  ⟨by decide, by decide, by decide, by decide⟩

/-- C9 amended: validation runs once, synchronously, before any event:
whenever the rename result violates the checks the source performs
(non-string or empty string — path-separator and control characters are
not checked), the stream terminates with the argument error and no
progress event is ever emitted, whatever the schedule. -/
theorem bad_rename_rejected_before_any_event (req : Request)
    (h : renameRejectedB req = true) :
    (∃ e, (startState req).term = some (Terminal.error e)) ∧
      ∀ l, (run req l).out = [] ∧ (run req l).term = (startState req).term := by
  have hv : ∃ e, validate req = some e := by
    by_cases hd : req.dir = ""
    · exact ⟨⟨"ERR_EMPTY_DIR", ""⟩, by unfold validate; rw [if_pos hd]⟩
    · cases hre : req.rename with
      | none =>
        simp only [renameRejectedB, hre] at h
        exact absurd h (by decide)
      | some f =>
        cases hfv : f (getPlatformBinName (targetPlatform req)) with
        | nonString =>
          refine ⟨⟨"ERR_RENAME_NOT_STRING", ""⟩, ?_⟩
          simp only [validate, hre, hfv, if_neg hd]
        | str s =>
          simp only [renameRejectedB, hre, hfv, decide_eq_true_eq] at h
          refine ⟨⟨"ERR_RENAME_EMPTY", ""⟩, ?_⟩
          simp only [validate, hre, hfv, if_neg hd, if_pos h]
  obtain ⟨e, he⟩ := hv
  have hs : startState req = { term := some (Terminal.error e) } := by
    unfold startState
    rw [he]
  have hcl : (startState req).closed = true := by
    rw [hs]
    rfl
  refine ⟨⟨e, by rw [hs]⟩, ?_⟩
  intro l
  obtain ⟨h1, h2, -⟩ := foldl_frozen req l (startState req) hcl
  constructor
  · show (l.foldl (step req) (startState req)).out = []
    rw [h1, hs]
  · exact h2

/-- C9 amended witness: non-string rename result is rejected and the
run delivers nothing. -/
theorem bad_rename_rejected_before_any_event_witness :
    renameRejectedB reqBadRename = true ∧
      (run reqBadRename [Input.dlNext]).out = [] :=
  ⟨by decide,
    ((bad_rename_rejected_before_any_event reqBadRename (by decide)).2 [Input.dlNext]).1⟩

/-- C10: a preparation failure delivered before the head milestone
emits head:complete and terminates with the error tagged
download-binary; a preparation failure delivered after the head
milestone only records the error — the visible state is unchanged and
no later step of the run ever surfaces it (bpeSurfaced marks the single
program point that surfaces the recorded error). -/
theorem prep_failure_timing (req : Request) (s : St) (e : Err) :
    (s.prepSettled = false → s.headDone = false → s.closed = false →
      (step req s (.prep (some e))).out = s.out ++ [⟨"head:complete", none⟩] ∧
      (step req s (.prep (some e))).term
        = some (Terminal.error ⟨e.code, "download-binary"⟩)) ∧
    (s.prepSettled = false → s.headDone = true →
      step req s (.prep (some e))
        = { s with prepSettled := true, binaryPathError := some e } ∧
      ∀ l : List Input,
        (List.foldl (step req) (step req s (.prep (some e))) l).headDone = true ∧
          (List.foldl (step req) (step req s (.prep (some e))) l).bpeSurfaced
            = s.bpeSurfaced) := by
  constructor
  · intro hp hh hcl
    rw [step_prep_before_head req s e hp hh hcl]
    exact ⟨rfl, rfl⟩
  · intro hp hh
    refine ⟨step_prep_after_head req s e hh hp, ?_⟩
    intro l
    have hh2 : (step req s (.prep (some e))).headDone = true := by
      rw [step_prep_after_head req s e hh hp]
      exact hh
    obtain ⟨g1, g2⟩ := foldl_headDone_bpeSurfaced req l _ hh2
    refine ⟨g1, g2.trans ?_⟩
    rw [step_prep_after_head req s e hh hp]

/-- C10 witness: a pre-head preparation failure terminates tagged
download-binary; a post-head one is never surfaced over a later
suffix. -/
theorem prep_failure_timing_witness :
    (step reqNative (startState reqNative) (Input.prep (some ⟨"EACCES", ""⟩))).term
        = some (Terminal.error ⟨"EACCES", "download-binary"⟩) ∧
      ([Input.dlNext].foldl (step reqNative)
          (step reqNative (run reqNative [Input.dlFilter "x"])
            (Input.prep (some ⟨"EACCES", ""⟩)))).bpeSurfaced
        = (run reqNative [Input.dlFilter "x"]).bpeSurfaced :=
  ⟨((prep_failure_timing reqNative (startState reqNative) ⟨"EACCES", ""⟩).1
      (by decide) (by decide) (by decide)).2,
    (((prep_failure_timing reqNative (run reqNative [Input.dlFilter "x"]) ⟨"EACCES", ""⟩).2
      (by decide) (by decide)).2 [Input.dlNext]).2⟩

end DownloadOrBuildPurescript
